import Mathlib

/-!
# DCC++ Base Station: the sensor registry (`Sensor.cpp`) and the throttle

A shallow embedding of `src/DCCpp_Uno/Sensor.cpp` and of the two speed
functions of `src/DCCpp_Uno/LCDThrottle.cpp`.

* The singly linked list hanging off `firstSensor` is a `List Sensor`: the
  head of the list is `*firstSensor`, the successor of a node is
  `nextSensor`, the empty list is `firstSensor == NULL`.
* A pointer into the list (`Sensor *tt`) is the position of its node,
  `Option Nat`, with `none` for `NULL`.
* `calloc` may fail: every call that can allocate takes the outcome of the
  allocation as a `Bool`.
* What is printed on `client` is returned as a `String`.
* `signal` is a rational number, as every floating-point number is. The
  arithmetic of the update in `check` is a parameter (`Arith`, `checkOneWith`):
  exact (`exactArith`, which is what `checkOne` computes) or IEEE 754 with
  rounding after every operation (`ieee`).
* An `int` is an `Int`: `Sensor.cpp` does no arithmetic on its integers, and
  the throttle stays within a few notches of 0.
* `Sensor.h` is not among the sources: the two structures are declared from
  the fields `Sensor.cpp` uses, and `SENSOR_DECAY` is a parameter.
* `EEStore` is not among the sources: the store is a cursor, a count and a
  storage of records, and `sizeof(tt->data)` is a parameter.
* `LCDThrottle.h` is not among the sources: `DISPLAY_MODE_NORMAL`, `FORWARD`
  and `REVERSE` are parameters.
-/

namespace Sensor

/-- Arduino level `LOW`. -/
def LOW : Int := 0

/-- Arduino level `HIGH`. -/
def HIGH : Int := 1

end Sensor

/-- Modelled from the spec: the declaration of `struct SensorData` (in
`Sensor.h`, which is not among the sources). The fields are the ones
`Sensor.cpp` assigns: `data.snum`, `data.pin`, `data.pullUp`, integers. -/
structure SensorData where
  snum : Int
  pin : Int
  pullUp : Int
  deriving DecidableEq, Repr

/-- Modelled from the spec: the declaration of `struct Sensor` (in `Sensor.h`,
which is not among the sources), without `nextSensor`, which is the list
structure. The fields are the ones `Sensor.cpp` uses: `data`, `signal`,
`active`. -/
structure Sensor where
  data : SensorData
  signal : ℚ
  active : Bool
  deriving DecidableEq, Repr

namespace Sensor

/-- The node `calloc(1,sizeof(Sensor))` returns: all bytes zero. -/
def zeroed : Sensor := ⟨⟨0, 0, 0⟩, 0, false⟩

/-- `Sensor::get(n)`:
`for(tt=firstSensor;tt!=NULL && tt->data.snum!=n;tt=tt->nextSensor);`
the position of the node the loop stops at, `none` when it runs off the
end. -/
def get (n : Int) : List Sensor → Option Nat
  | [] => none
  | s :: rest => if s.data.snum = n then some 0 else (get n rest).map (· + 1)

/-- What a call of `Sensor::create` leaves behind. -/
structure Created where
  /-- the list reachable from `firstSensor` after the call -/
  reg : List Sensor
  /-- the returned pointer -/
  ret : Option Nat
  /-- what was printed on `client` -/
  out : String
  /-- the calls `pinMode(pin,INPUT)`, `digitalWrite(pin,pullUp)`, as
  pairs (pin, value written) -/
  written : List (Int × Int)

/-- The first part of `Sensor::create`, up to `if(tt==NULL)`: the list and
`tt`. `alloc` is whether `calloc` succeeds if it is called.
* `firstSensor==NULL`: `firstSensor=calloc(..); tt=firstSensor;`
* `(tt=get(snum))==NULL`: walk to the last node, hang the new node on its
  `nextSensor`, `tt` is the new node;
* otherwise `tt` is the node `get` found. -/
def locate (snum : Int) (alloc : Bool) (reg : List Sensor) : List Sensor × Option Nat :=
  match reg with
  | [] => if alloc then ([zeroed], some 0) else ([], none)
  | _ :: _ =>
    match get snum reg with
    | none => if alloc then (reg ++ [zeroed], some reg.length) else (reg, none)
    | some i => (reg, some i)

/-- `Sensor::create(snum,pin,pullUp,v)`. After `locate`, a `NULL` `tt`
prints `<X>` if `v==1` and returns; otherwise all of `data.snum`,
`data.pin`, `data.pullUp`, `active`, `signal` of `*tt` are assigned, the pin
is configured, and `<O>` is printed if `v==1`. -/
def create (snum pin pullUp v : Int) (alloc : Bool) (reg : List Sensor) : Created :=
  match locate snum alloc reg with
  | (reg1, none) => ⟨reg1, none, if v = 1 then "<X>" else "", []⟩
  | (reg1, some i) =>
    ⟨reg1.set i ⟨⟨snum, pin, if pullUp = 0 then LOW else HIGH⟩, 1, false⟩,
      some i, if v = 1 then "<O>" else "", [(pin, pullUp)]⟩

/-- The search loop of `Sensor::remove`:
`for(tt=firstSensor;tt!=NULL && tt->data.snum!=n;pp=tt,tt=tt->nextSensor);`
run from position `i` with the current value of `pp` (`none`: never
assigned). Returns `(pp, tt)` at loop exit. -/
def removeLoop (n : Int) : List Sensor → Nat → Option Nat → Option Nat × Option Nat
  | [], _, pp => (pp, none)
  | s :: rest, i, pp =>
    if s.data.snum = n then (pp, some i) else removeLoop n rest (i + 1) (some i)

/-- `Sensor::remove(n)`: the list afterwards and what was printed.
* `tt==NULL`: print `<X>`, return;
* `tt==firstSensor`: `firstSensor=tt->nextSensor`;
* else `pp->nextSensor=tt->nextSensor`: the nodes up to and including `pp`
  are followed by the nodes after `tt`.
The last line of the match is the read of a `pp` that was never assigned;
`removeLoop_pp` shows that no list reaches it. -/
def remove (n : Int) (reg : List Sensor) : List Sensor × String :=
  match removeLoop n reg 0 none with
  | (_, none) => (reg, "<X>")
  | (pp, some t) =>
    if t = 0 then (reg.tail, "<O>")
    else match pp with
      | some p => (reg.take (p + 1) ++ reg.drop (t + 1), "<O>")
      | none => (reg, "")

/-- `Sensor::show()`: `<X>` when `firstSensor==NULL`, otherwise for every
node in list order `<Q`, `snum`, a blank, `pin`, a blank, `pullUp`, `>`.
Numbers are printed in decimal. -/
def showCmd (reg : List Sensor) : String :=
  match reg with
  | [] => "<X>"
  | _ :: _ =>
    String.join (reg.map fun s =>
      "<Q" ++ toString s.data.snum ++ " " ++ toString s.data.pin ++ " "
        ++ toString s.data.pullUp ++ ">")

/-- The body of the loop of `Sensor::check` for one node in exact
arithmetic, `sample` being what `digitalRead(tt->data.pin)` returns and
`decay` the constant `SENSOR_DECAY` (defined in `Sensor.h`, which is not
among the sources): the node afterwards and what was printed. The same body
in the arithmetic of the machine is `checkOneWith` below. -/
def checkOne (decay : ℚ) (sample : Int) (s : Sensor) : Sensor × String :=
  let signal := s.signal * (1 - decay) + (sample : ℚ) * decay
  if !s.active && decide (signal < 1 / 2) then
    ({ s with signal := signal, active := true }, "<Q" ++ toString s.data.snum ++ ">")
  else if s.active && decide (signal > 9 / 10) then
    ({ s with signal := signal, active := false }, "<q" ++ toString s.data.snum ++ ">")
  else
    ({ s with signal := signal }, "")

/-- `Sensor::check()` in exact arithmetic: the loop over all nodes,
`digitalRead` giving the level of every pin during this cycle. -/
def check (decay : ℚ) (digitalRead : Int → Int) : List Sensor → List Sensor × String
  | [] => ([], "")
  | s :: rest =>
    let r := checkOne decay (digitalRead s.data.pin) s
    let rs := check decay digitalRead rest
    (r.1 :: rs.1, r.2 ++ rs.2)

/-- The life of one node over successive cycles of `check`, `samples` being
what `digitalRead` returns for its pin from cycle to cycle: the node at the
end and everything printed for it. -/
def track (decay : ℚ) : List Int → Sensor → Sensor × String
  | [], s => (s, "")
  | x :: xs, s =>
    let r := checkOne decay x s
    let rs := track decay xs r.1
    (rs.1, r.2 ++ rs.2)

/-- `isspace` in the C locale: the blank and the controls 9 to 13. -/
def isspace (c : Char) : Bool := c = ' ' || (9 ≤ c.toNat && c.toNat ≤ 13)

/-- Skipping of white space, as `%d` and a blank in a format do. -/
def skipSpace : List Char → List Char
  | [] => []
  | c :: cs => if isspace c then skipSpace cs else c :: cs

/-- The digits of a decimal numeral, accumulated from the left. -/
def scanDigits (acc : Nat) : List Char → Nat × List Char
  | [] => (acc, [])
  | c :: cs =>
    if c.isDigit then scanDigits (acc * 10 + (c.toNat - 48)) cs else (acc, c :: cs)

/-- How one `%d` directive ends. -/
inductive Conv
  /-- the input ended before a character of the item was read -/
  | inputFailure
  /-- the input does not start a decimal integer -/
  | matchFailure
  /-- the value converted and the input left -/
  | ok (v : Int) (rest : List Char)

/-- One `%d` directive of the C library `sscanf`: white space is skipped,
then an optional sign and a non-empty run of digits are converted. Numerals
beyond the range of `int` are undefined for `sscanf`; here they yield their
value. -/
def scanInt (cs : List Char) : Conv :=
  match skipSpace cs with
  | [] => Conv.inputFailure
  | c :: rest =>
    let body := if c = '-' ∨ c = '+' then rest else c :: rest
    match body with
    | [] => Conv.matchFailure
    | d :: _ =>
      if d.isDigit then
        let r := scanDigits 0 body
        Conv.ok (if c = '-' then -(r.1 : Int) else (r.1 : Int)) r.2
      else Conv.matchFailure

/-- What `sscanf(c,"%d %d %d",&n,&s,&m)` reports. -/
inductive Scanned
  /-- return value `EOF` (-1): the input ended before the first conversion -/
  | eof
  /-- return value `vals.length`: the values stored, in the order `n`, `s`, `m` -/
  | assigned (vals : List Int)

/-- The C library call `sscanf(c,"%d %d %d",&n,&s,&m)`. The blanks of the
format skip white space, which the following `%d` does anyway. -/
def sscanf (c : List Char) : Scanned :=
  match scanInt c with
  | Conv.inputFailure => Scanned.eof
  | Conv.matchFailure => Scanned.assigned []
  | Conv.ok n r1 =>
    match scanInt r1 with
    | Conv.ok s r2 =>
      match scanInt r2 with
      | Conv.ok m _ => Scanned.assigned [n, s, m]
      | _ => Scanned.assigned [n, s]
    | _ => Scanned.assigned [n]

/-- The value `sscanf` returns. -/
def Scanned.ret : Scanned → Int
  | Scanned.eof => -1
  | Scanned.assigned vals => vals.length

/-- `Sensor::parse(c)`: the switch on the value of `sscanf`.
`case 3` is `create(n,s,m,1)`, `case 1` is `remove(n)`, `case -1` is
`show()`, `case 2` prints `<X>`; no other value has a case. -/
def parse (c : String) (alloc : Bool) (reg : List Sensor) : List Sensor × String :=
  match sscanf c.toList with
  | Scanned.assigned [n, s, m] => ((create n s m 1 alloc reg).reg, (create n s m 1 alloc reg).out)
  | Scanned.assigned [n] => remove n reg
  | Scanned.eof => (reg, showCmd reg)
  | Scanned.assigned [_, _] => (reg, "<X>")
  | Scanned.assigned _ => (reg, "")

/-- The numbers of the nodes, in list order. -/
def snums (reg : List Sensor) : List Int := reg.map fun s => s.data.snum

/-- Every `signal` of the list is in [0,1]. -/
def SignalsInRange (reg : List Sensor) : Prop := ∀ s ∈ reg, 0 ≤ s.signal ∧ s.signal ≤ 1

/-- A call of `create` or `remove`, with the outcome of the allocation the
call may make. -/
inductive Op
  | create (snum pin pullUp v : Int) (alloc : Bool)
  | remove (n : Int)
  deriving DecidableEq

/-- The list after a call. -/
def Op.apply : Op → List Sensor → List Sensor
  | Op.create snum pin pullUp v alloc, reg => (Sensor.create snum pin pullUp v alloc reg).reg
  | Op.remove n, reg => (Sensor.remove n reg).1

/-- The list after a sequence of calls, first call first. -/
def run : List Op → List Sensor → List Sensor
  | [], reg => reg
  | o :: ops, reg => run ops (o.apply reg)

/-- The lists that sequences of `create` and `remove` build from
`firstSensor == NULL`. -/
def Reachable (reg : List Sensor) : Prop := ∃ ops, run ops [] = reg

/-- A call of `create` or `remove`, or one cycle of `check` with the levels
of the pins during it. -/
inductive Step
  | op (o : Op)
  | check (digitalRead : Int → Int)

/-- The list after a step. -/
def Step.apply (decay : ℚ) : Step → List Sensor → List Sensor
  | Step.op o, reg => o.apply reg
  | Step.check digitalRead, reg => (Sensor.check decay digitalRead reg).1

/-- The list after a sequence of steps, first step first. -/
def runSteps (decay : ℚ) : List Step → List Sensor → List Sensor
  | [], reg => reg
  | st :: sts, reg => runSteps decay sts (st.apply decay reg)

/-- The lists that sequences of `create` and `remove` calls and of cycles of
`check`, with some value of `SENSOR_DECAY`, build from
`firstSensor == NULL`. -/
def ReachableWithCheck (reg : List Sensor) : Prop :=
  ∃ (decay : ℚ) (steps : List Step), runSteps decay steps [] = reg

/-- What is printed for one node in each of successive cycles of `check`,
cycle by cycle (the empty string for a cycle that prints nothing); `track`
gives their concatenation. -/
def trace (decay : ℚ) : List Int → Sensor → List String
  | [], _ => []
  | x :: xs, s => (checkOne decay x s).2 :: trace decay xs (checkOne decay x s).1

/-- The list `a, b, a, b, ...` of length `n`. -/
def alternating (a b : String) : Nat → List String
  | 0 => []
  | n + 1 => a :: alternating b a n

/-- The use `Sensor::remove(n)` makes of `pp`: `none` when `pp` is not read
(the loop ran off the end and the function returned, or `tt==firstSensor`),
`some pp` when the statement `pp->nextSensor=tt->nextSensor` is reached, `pp`
being what the loop left in it, `none` for a `pp` that was never assigned. -/
def removeReadsPp (n : Int) (reg : List Sensor) : Option (Option Nat) :=
  match removeLoop n reg 0 none with
  | (_, none) => none
  | (pp, some t) => if t = 0 then none else some pp

/-- The first node with `snum = n`, the node `get(n)` points to. -/
def lookup (n : Int) (reg : List Sensor) : Option Sensor :=
  reg.find? fun s => decide (s.data.snum = n)

/-- Successive cycles of `Sensor::check()`, `reads` giving for each cycle the
level of every pin: the list at the end and everything printed. -/
def cycles (decay : ℚ) : List (Int → Int) → List Sensor → List Sensor × String
  | [], reg => (reg, "")
  | rd :: rds, reg =>
    let r := check decay rd reg
    let rs := cycles decay rds r.1
    (rs.1, r.2 ++ rs.2)

/-- The id a call of `create` or `remove` is about. -/
def Op.snum : Op → Int
  | Op.create snum _ _ _ _ => snum
  | Op.remove n => n

/-- The arithmetic of the loop body of `Sensor::check`: `upd s x` is what the
assignment
`tt->signal=tt->signal*(1.0-SENSOR_DECAY)+digitalRead(tt->data.pin)*SENSOR_DECAY`
leaves in `tt->signal` when `tt->signal` was `s` and `digitalRead` returns
`x`, and `hi` is the value of the constant `0.9` of the comparison
`tt->signal>0.9`. (The constant `0.5` is 1/2 in every binary format.) -/
structure Arith where
  upd : ℚ → Int → ℚ
  hi : ℚ

/-- The arithmetic of the rational numbers, without rounding. -/
def exactArith (decay : ℚ) : Arith :=
  ⟨fun s x => s * (1 - decay) + (x : ℚ) * decay, 9 / 10⟩

/-- Rounding to the nearest integer, a tie going to the even one: the
rounding of IEEE 754. -/
def roundNE (y : ℚ) : Int :=
  if y - ⌊y⌋ < 1 / 2 then ⌊y⌋
  else if y - ⌊y⌋ > 1 / 2 then ⌊y⌋ + 1
  else if ⌊y⌋ % 2 = 0 then ⌊y⌋ else ⌊y⌋ + 1

/-- The binary floating-point number of `p` significant bits nearest to `x`, a
tie going to the even significand. The exponent is not bounded: no overflow,
no subnormal numbers. -/
def fl (p : Nat) (x : ℚ) : ℚ :=
  if x = 0 then 0
  else (roundNE (x / (2 : ℚ) ^ (Int.log 2 |x| - ((p : Int) - 1))) : ℚ)
    * (2 : ℚ) ^ (Int.log 2 |x| - ((p : Int) - 1))

/-- IEEE 754 arithmetic: the constants `SENSOR_DECAY` (written `decay` in the
source text), `1.0` and `0.9` and the operations `-`, `*`, `+` are in a format
of `p` significant bits (53 for a `double` of 64 bits, 24 where `double` is a
`float`), every operation rounding its exact result, and the sum is stored
in a `signal` of `ps` significant bits (24 for `float`, 53 for `double`).
`digitalRead` returns an `int`, whose conversion is exact. -/
def ieee (p ps : Nat) (decay : ℚ) : Arith :=
  ⟨fun s x =>
    fl ps (fl p (fl p (s * fl p (1 - fl p decay)) + fl p ((x : ℚ) * fl p decay))),
    fl p (9 / 10)⟩

/-- The body of the loop of `Sensor::check` for one node, in the arithmetic
`a`: the node afterwards and what was printed. -/
def checkOneWith (a : Arith) (sample : Int) (s : Sensor) : Sensor × String :=
  let signal := a.upd s.signal sample
  if !s.active && decide (signal < 1 / 2) then
    ({ s with signal := signal, active := true }, "<Q" ++ toString s.data.snum ++ ">")
  else if s.active && decide (signal > a.hi) then
    ({ s with signal := signal, active := false }, "<q" ++ toString s.data.snum ++ ">")
  else
    ({ s with signal := signal }, "")

/-- `Sensor::check()` in the arithmetic `a`. -/
def checkWith (a : Arith) (digitalRead : Int → Int) : List Sensor → List Sensor × String
  | [] => ([], "")
  | s :: rest =>
    let r := checkOneWith a (digitalRead s.data.pin) s
    let rs := checkWith a digitalRead rest
    (r.1 :: rs.1, r.2 ++ rs.2)

/-- The life of one node over successive cycles of `check` in the arithmetic
`a`: the node at the end and everything printed for it. -/
def trackWith (a : Arith) : List Int → Sensor → Sensor × String
  | [], s => (s, "")
  | x :: xs, s =>
    let r := checkOneWith a x s
    let rs := trackWith a xs r.1
    (rs.1, r.2 ++ rs.2)

/-- Successive cycles of `Sensor::check()` in the arithmetic `a`: the list at
the end and everything printed. -/
def cyclesWith (a : Arith) : List (Int → Int) → List Sensor → List Sensor × String
  | [], reg => (reg, "")
  | rd :: rds, reg =>
    let r := checkWith a rd reg
    let rs := cyclesWith a rds r.1
    (rs.1, r.2 ++ rs.2)

/-- The signal decays under the sample 0: a cycle with the sample 0 takes a
stored signal `s` in [0.5, 1] to at most `q*s`, with `0 ≤ q < 1`; it takes
no signal in [0, `0.9`] above `0.9`, and no signal that is not negative below
0. The constant `0.9` is at least 0.5. -/
def DecaysAt0 (a : Arith) (q : ℚ) : Prop :=
  0 ≤ q ∧ q < 1 ∧ 1 / 2 ≤ a.hi ∧
  (∀ s, 0 ≤ s → 0 ≤ a.upd s 0) ∧
  (∀ s, 1 / 2 ≤ s → s ≤ 1 → a.upd s 0 ≤ q * s) ∧
  (∀ s, 0 ≤ s → s ≤ a.hi → a.upd s 0 ≤ a.hi)

/-- The signal rises under the sample 1: a cycle with the sample 1 takes a
stored signal `s` in [0, `0.9`] to a signal whose distance to 1 is at most
`q*(1-s)`, with `0 ≤ q < 1`; it takes no signal that is not negative below 0
and no signal that is at least 0.5 below 0.5. The constant `0.9` is at least
0.5 and below 1. -/
def RisesAt1 (a : Arith) (q : ℚ) : Prop :=
  0 ≤ q ∧ q < 1 ∧ 1 / 2 ≤ a.hi ∧ a.hi < 1 ∧
  (∀ s, 0 ≤ s → 0 ≤ a.upd s 1) ∧
  (∀ s, 0 ≤ s → s ≤ a.hi → 1 - a.upd s 1 ≤ q * (1 - s)) ∧
  (∀ s, 1 / 2 ≤ s → 1 / 2 ≤ a.upd s 1)

end Sensor

/-! ## The throttle (`LCDThrottle.cpp`) -/

/-- Modelled from the spec: the members of `class LCDThrottle` (declared in
`LCDThrottle.h`, which is not among the sources) that `increaseSpeed` and
`decreaseSpeed` read and write, integers. -/
structure LCDThrottle where
  notch : Int
  speed : Int
  dir : Int
  displayMode : Int
  deriving DecidableEq, Repr

namespace LCDThrottle

/-- `#define MAX_SPEED 60` -/
def MAX_SPEED : Int := 60

/-- `#define MAX_NOTCH_NORMAL 15` -/
def MAX_NOTCH_NORMAL : Int := 15

/-- `#define MAX_NOTCH_SWITCHER 7` -/
def MAX_NOTCH_SWITCHER : Int := 7

/-- The signed notch, `(dir == REVERSE ? -notch : notch)`. -/
def signedNotch (REVERSE : Int) (t : LCDThrottle) : Int :=
  if t.dir = REVERSE then -t.notch else t.notch

/-- `LCDThrottle::increaseSpeed()`, without the line it prints on `Serial`.
`DISPLAY_MODE_NORMAL`, `FORWARD` and `REVERSE` are constants of
`LCDThrottle.h`, which is not among the sources. The division of C
truncates: `Int.tdiv`. The sums stay far from the ends of `int` for the
notches the throttle uses. -/
def increaseSpeed (DISPLAY_MODE_NORMAL FORWARD REVERSE : Int) (t : LCDThrottle) :
    LCDThrottle :=
  if t.displayMode = DISPLAY_MODE_NORMAL then
    let notch := if t.notch = MAX_NOTCH_NORMAL then MAX_NOTCH_NORMAL else t.notch + 1
    { t with notch := notch, speed := notch * (Int.tdiv MAX_SPEED MAX_NOTCH_NORMAL) }
  else
    let tmp_notch := if t.dir = REVERSE then -t.notch else t.notch
    let tmp_notch := if tmp_notch = MAX_NOTCH_SWITCHER then MAX_NOTCH_SWITCHER else tmp_notch + 1
    if tmp_notch ≥ 0 then
      { t with dir := FORWARD, notch := tmp_notch,
               speed := tmp_notch * (Int.tdiv MAX_SPEED MAX_NOTCH_SWITCHER) }
    else
      { t with dir := REVERSE, notch := -tmp_notch,
               speed := -tmp_notch * (Int.tdiv MAX_SPEED MAX_NOTCH_SWITCHER) }

/-- `LCDThrottle::decreaseSpeed()`, without the line it prints on `Serial`. -/
def decreaseSpeed (DISPLAY_MODE_NORMAL FORWARD REVERSE : Int) (t : LCDThrottle) :
    LCDThrottle :=
  if t.displayMode = DISPLAY_MODE_NORMAL then
    let notch := if t.notch = 0 then 0 else t.notch - 1
    { t with notch := notch, speed := notch * (Int.tdiv MAX_SPEED MAX_NOTCH_NORMAL) }
  else
    let tmp_notch := if t.dir = REVERSE then -t.notch else t.notch
    let tmp_notch :=
      if tmp_notch = -MAX_NOTCH_SWITCHER then -MAX_NOTCH_SWITCHER else tmp_notch - 1
    if tmp_notch < 0 then
      { t with dir := REVERSE, notch := -tmp_notch,
               speed := -tmp_notch * (Int.tdiv MAX_SPEED MAX_NOTCH_SWITCHER) }
    else
      { t with dir := FORWARD, notch := tmp_notch,
               speed := tmp_notch * (Int.tdiv MAX_SPEED MAX_NOTCH_SWITCHER) }

end LCDThrottle

/-! ## Lemmas on the list operations -/

namespace Sensor

theorem get_eq_none_iff (n : Int) (reg : List Sensor) :
    get n reg = none ↔ ∀ s ∈ reg, s.data.snum ≠ n := by
  induction reg with
  | nil => simp [get]
  | cons a rest ih =>
    by_cases h : a.data.snum = n
    · simp [get, h]
    · simp [get, h, ih]

/-- The node `get` stops at has the number looked for, and no node before it
has. -/
theorem get_eq_some_iff (n : Int) (reg : List Sensor) (i : Nat) :
    get n reg = some i ↔
      ∃ pre x post, reg = pre ++ x :: post ∧ pre.length = i ∧ x.data.snum = n ∧
        ∀ y ∈ pre, y.data.snum ≠ n := by
  induction reg generalizing i with
  | nil => simp [get]
  | cons a rest ih =>
    by_cases ha : a.data.snum = n
    · simp only [get, ha, if_true, Option.some.injEq]
      constructor
      · rintro rfl
        exact ⟨[], a, rest, rfl, rfl, ha, by simp⟩
      · rintro ⟨pre, x, post, he, hl, _, hpre⟩
        cases pre with
        | nil => simpa using hl
        | cons b pre =>
          simp only [List.cons_append, List.cons.injEq] at he
          exact absurd ha (he.1 ▸ hpre b (by simp))
    · simp only [get, ha, if_false, Option.map_eq_some']
      constructor
      · rintro ⟨k, hk, rfl⟩
        obtain ⟨pre, x, post, he, hl, hx, hpre⟩ := (ih k).1 hk
        refine ⟨a :: pre, x, post, by simp [he], by simp [hl], hx, ?_⟩
        intro y hy
        rcases List.mem_cons.1 hy with rfl | hy
        · exact ha
        · exact hpre y hy
      · rintro ⟨pre, x, post, he, hl, hx, hpre⟩
        cases pre with
        | nil =>
          simp only [List.nil_append, List.cons.injEq] at he
          exact absurd (he.1 ▸ hx) ha
        | cons b pre =>
          simp only [List.cons_append, List.cons.injEq] at he
          refine ⟨pre.length, (ih _).2 ⟨pre, x, post, he.2, rfl, hx, ?_⟩, by simpa using hl⟩
          intro y hy
          exact hpre y (by simp [hy])

/-- The loop of `remove` stops where the loop of `get` stops; `pp` is then
the node just before, unless the loop stopped at once. -/
theorem removeLoop_eq (n : Int) (reg : List Sensor) (i : Nat) (pp : Option Nat) :
    removeLoop n reg i pp =
      match get n reg with
      | none => ((removeLoop n reg i pp).1, none)
      | some 0 => (pp, some i)
      | some (k + 1) => (some (i + k), some (i + k + 1)) := by
  induction reg generalizing i pp with
  | nil => simp [removeLoop, get]
  | cons a rest ih =>
    by_cases ha : a.data.snum = n
    · simp [removeLoop, get, ha]
    · rw [removeLoop, if_neg ha, get, if_neg ha, ih (i + 1) (some i)]
      cases hg : get n rest with
      | none => simp
      | some k =>
        cases k with
        | zero => simp
        | succ k => simp; omega

/-- In `remove`, when the loop stops at a node other than the first, `pp`
has been assigned: it is the node before. -/
theorem removeLoop_pp (n : Int) (reg : List Sensor) (pp : Option Nat) (t : Nat)
    (h : removeLoop n reg 0 none = (pp, some t)) : t = 0 ∨ pp = some (t - 1) := by
  rw [removeLoop_eq] at h
  cases hg : get n reg with
  | none => simp [hg] at h
  | some k =>
    cases k with
    | zero => simp [hg] at h; omega
    | succ k => simp [hg] at h; obtain ⟨h1, h2⟩ := h; subst h1 h2; simp

/-- `remove` in one equation: nothing happens without a match, otherwise the
node `get` finds is unlinked. -/
theorem remove_eq (n : Int) (reg : List Sensor) :
    remove n reg =
      match get n reg with
      | none => (reg, "<X>")
      | some i => (reg.eraseIdx i, "<O>") := by
  unfold remove
  rw [removeLoop_eq]
  cases hg : get n reg with
  | none => simp
  | some k =>
    cases k with
    | zero => cases reg <;> simp
    | succ k =>
      simp only [Nat.zero_add, Nat.add_one_ne_zero, if_false]
      congr 1
      rw [List.eraseIdx_eq_take_drop_succ]

theorem create_absent_ok (snum pin pullUp v : Int) (reg : List Sensor)
    (h : get snum reg = none) :
    create snum pin pullUp v true reg =
      ⟨reg ++ [⟨⟨snum, pin, if pullUp = 0 then LOW else HIGH⟩, 1, false⟩], some reg.length,
        if v = 1 then "<O>" else "", [(pin, pullUp)]⟩ := by
  cases reg with
  | nil => simp [create, locate, zeroed]
  | cons a rest =>
    simp only [create, locate, h, if_true]
    congr 1
    rw [List.set_append_right _ _ (le_refl _)]
    simp

theorem create_absent_fail (snum pin pullUp v : Int) (reg : List Sensor)
    (h : get snum reg = none) :
    create snum pin pullUp v false reg = ⟨reg, none, if v = 1 then "<X>" else "", []⟩ := by
  cases reg with
  | nil => simp [create, locate]
  | cons a rest => simp [create, locate, h]

theorem create_present (snum pin pullUp v : Int) (alloc : Bool) (reg : List Sensor) (i : Nat)
    (h : get snum reg = some i) :
    create snum pin pullUp v alloc reg =
      ⟨reg.set i ⟨⟨snum, pin, if pullUp = 0 then LOW else HIGH⟩, 1, false⟩, some i,
        if v = 1 then "<O>" else "", [(pin, pullUp)]⟩ := by
  cases reg with
  | nil => simp [get] at h
  | cons a rest => simp [create, locate, h]

theorem get_eq_none_iff_snums (n : Int) (reg : List Sensor) :
    get n reg = none ↔ n ∉ snums reg := by
  rw [get_eq_none_iff]
  simp only [snums, List.mem_map, not_exists, not_and]

theorem snums_set_of_get {n : Int} {reg : List Sensor} {i : Nat} (h : get n reg = some i)
    (s : Sensor) (hs : s.data.snum = n) : snums (reg.set i s) = snums reg := by
  obtain ⟨pre, x, post, rfl, rfl, hx, _⟩ := (get_eq_some_iff n _ i).1 h
  simp [snums, hs, hx]

/-- What `create` does to the numbers in the list: nothing, or `snum` is
added at the end, and then it was not in the list. -/
theorem snums_create (snum pin pullUp v : Int) (alloc : Bool) (reg : List Sensor) :
    snums (create snum pin pullUp v alloc reg).reg = snums reg ∨
      (snum ∉ snums reg ∧ snums (create snum pin pullUp v alloc reg).reg = snums reg ++ [snum]) := by
  cases hg : get snum reg with
  | none =>
    cases alloc with
    | false => left; rw [create_absent_fail _ _ _ _ _ hg]
    | true =>
      right
      rw [create_absent_ok _ _ _ _ _ hg]
      exact ⟨(get_eq_none_iff_snums _ _).1 hg, by simp [snums]⟩
  | some i =>
    left
    rw [create_present _ _ _ _ _ _ _ hg]
    exact snums_set_of_get hg _ rfl

/-- What `remove` does to the numbers in the list: the first `n` is erased. -/
theorem snums_remove (n : Int) (reg : List Sensor) :
    snums (remove n reg).1 = (snums reg).erase n := by
  rw [remove_eq]
  cases hg : get n reg with
  | none =>
    simp only
    rw [List.erase_of_not_mem ((get_eq_none_iff_snums _ _).1 hg)]
  | some i =>
    obtain ⟨pre, x, post, rfl, rfl, hx, hpre⟩ := (get_eq_some_iff n _ i).1 hg
    have hn : n ∉ List.map (fun s => s.data.snum) pre := by
      simp only [List.mem_map, not_exists, not_and]
      exact fun y hy => hpre y hy
    simp only [snums, List.eraseIdx_append_of_length_le (le_refl _), Nat.sub_self,
      List.eraseIdx_cons_zero, List.map_append, List.map_cons, hx]
    rw [List.erase_append_right _ hn, List.erase_cons_head]

theorem nodup_snums_apply (o : Op) (reg : List Sensor) (h : (snums reg).Nodup) :
    (snums (o.apply reg)).Nodup := by
  cases o with
  | create snum pin pullUp v alloc =>
    rcases snums_create snum pin pullUp v alloc reg with he | ⟨hn, he⟩
    · simpa [Op.apply, he] using h
    · simp only [Op.apply, he]
      exact List.Nodup.append h (by simp) (by simpa using hn)
  | remove n =>
    simp only [Op.apply, snums_remove]
    exact h.erase n

theorem nodup_snums_run (ops : List Op) (reg : List Sensor) (h : (snums reg).Nodup) :
    (snums (run ops reg)).Nodup := by
  induction ops generalizing reg with
  | nil => simpa [run] using h
  | cons o ops ih => exact ih _ (nodup_snums_apply o reg h)

theorem nodup_snums_of_reachable {reg : List Sensor} (h : Reachable reg) :
    (snums reg).Nodup := by
  obtain ⟨ops, rfl⟩ := h
  exact nodup_snums_run ops [] (by simp [snums])

theorem mem_snums_create (id pin pullUp v : Int) (alloc : Bool) (reg : List Sensor)
    (h : (create id pin pullUp v alloc reg).ret ≠ none) :
    id ∈ snums (create id pin pullUp v alloc reg).reg := by
  cases hg : get id reg with
  | none =>
    cases alloc with
    | false => rw [create_absent_fail _ _ _ _ _ hg] at h; exact absurd rfl h
    | true => rw [create_absent_ok _ _ _ _ _ hg]; simp [snums]
  | some i =>
    rw [create_present _ _ _ _ _ _ _ hg, snums_set_of_get hg _ rfl]
    by_contra hn
    rw [← get_eq_none_iff_snums, hg] at hn
    exact absurd hn (by simp)

theorem mem_snums_apply {id : Int} (o : Op) (reg : List Sensor) (ho : o ≠ Op.remove id)
    (h : id ∈ snums reg) : id ∈ snums (o.apply reg) := by
  cases o with
  | create snum pin pullUp v alloc =>
    rcases snums_create snum pin pullUp v alloc reg with he | ⟨_, he⟩
    · simpa [Op.apply, he] using h
    · simp [Op.apply, he, h]
  | remove n =>
    have hn : id ≠ n := fun e => ho (by rw [e])
    simp only [Op.apply, snums_remove]
    exact (List.mem_erase_of_ne hn).2 h

theorem mem_snums_run {id : Int} (ops : List Op) (reg : List Sensor)
    (ho : ∀ o ∈ ops, o ≠ Op.remove id) (h : id ∈ snums reg) : id ∈ snums (run ops reg) := by
  induction ops generalizing reg with
  | nil => simpa [run] using h
  | cons o ops ih =>
    exact ih _ (fun o' ho' => ho o' (by simp [ho']))
      (mem_snums_apply o reg (ho o (by simp)) h)

/-- A number in the list is found by `get`, at a node that carries it. -/
theorem get_of_mem_snums {id : Int} {reg : List Sensor} (h : id ∈ snums reg) :
    ∃ i s, get id reg = some i ∧ reg[i]? = some s ∧ s.data.snum = id := by
  cases hg : get id reg with
  | none => exact absurd h ((get_eq_none_iff_snums _ _).1 hg)
  | some i =>
    obtain ⟨pre, x, post, rfl, rfl, hx, _⟩ := (get_eq_some_iff id _ i).1 hg
    exact ⟨pre.length, x, rfl, by rw [List.getElem?_append_right (le_refl _)]; simp, hx⟩

theorem checkOne_signal (d : ℚ) (x : Int) (s : Sensor) :
    (checkOne d x s).1.signal = s.signal * (1 - d) + (x : ℚ) * d := by
  simp only [checkOne]
  split_ifs <;> rfl

theorem checkOne_data (d : ℚ) (x : Int) (s : Sensor) : (checkOne d x s).1.data = s.data := by
  simp only [checkOne]
  split_ifs <;> rfl

/-- `check` treats every node by `checkOne`, in list order. -/
theorem check_eq_map (d : ℚ) (rd : Int → Int) (reg : List Sensor) :
    (check d rd reg).1 = reg.map (fun s => (checkOne d (rd s.data.pin) s).1) ∧
      (check d rd reg).2 = String.join (reg.map fun s => (checkOne d (rd s.data.pin) s).2) := by
  induction reg with
  | nil => exact ⟨rfl, rfl⟩
  | cons a rest ih =>
    refine ⟨by simp [check, ih.1], ?_⟩
    simp only [check, ih.2, List.map_cons, String.join, List.foldl_cons]
    generalize (checkOne d (rd a.data.pin) a).2 = o
    generalize List.map (fun s => (checkOne d (rd s.data.pin) s).2) rest = l
    have hf : ∀ (l : List String) (acc : String),
        List.foldl (fun r s => r ++ s) acc l = acc ++ List.foldl (fun r s => r ++ s) "" l := by
      intro l
      induction l with
      | nil => intro acc; simp
      | cons b l ihl =>
        intro acc
        rw [List.foldl_cons, List.foldl_cons, ihl (acc ++ b), ihl ("" ++ b)]
        simp [String.append_assoc]
    rw [hf l ("" ++ o)]
    simp

/-- A list built without `check` is a list built with or without it. -/
theorem reachableWithCheck_of_reachable {reg : List Sensor} (h : Reachable reg) :
    ReachableWithCheck reg := by
  obtain ⟨ops, rfl⟩ := h
  refine ⟨0, ops.map Step.op, ?_⟩
  generalize ([] : List Sensor) = r
  induction ops generalizing r with
  | nil => rfl
  | cons o ops ih => simpa [runSteps, run, Step.apply] using ih (o.apply r)

/-! ## The list operations: `create`, `get`, `remove` -/

/-- C1: after every finite sequence of `create` and `remove` calls from the
empty list, whatever the ids, pins, pull-up values and allocation outcomes,
no two nodes of the list have the same `data.snum`. -/
theorem C1_snum_unique (ops : List Op) :
    (run ops []).Pairwise fun a b => a.data.snum ≠ b.data.snum := by
  have h := nodup_snums_run ops [] (by simp [snums])
  rw [snums, List.Nodup, List.pairwise_map] at h
  exact h

/-- C2: if `create(id,pin,pullUp)` returns a node (not `NULL`) then after any
further sequence of `create` and `remove` calls, none of which is
`remove(id)`, `get(id)` returns a node and this node has `snum = id`; this
holds from every list, reachable or not. And for every list, `get(n)` is
`NULL` exactly when no node has `snum = n`, and otherwise it is the first node
in list order with `snum = n`. -/
theorem C2_get_after_create (reg : List Sensor) (id pin pullUp v : Int) (alloc : Bool)
    (ops : List Op)
    (hc : (create id pin pullUp v alloc reg).ret ≠ none)
    (hops : ∀ o ∈ ops, o ≠ Op.remove id) :
    (∃ i s, get id (run ops (create id pin pullUp v alloc reg).reg) = some i ∧
        (run ops (create id pin pullUp v alloc reg).reg)[i]? = some s ∧ s.data.snum = id) ∧
      ∀ (n : Int) (r : List Sensor),
        (get n r = none ↔ ∀ s ∈ r, s.data.snum ≠ n) ∧
        ∀ i, get n r = some i ↔
          ∃ pre x post, r = pre ++ x :: post ∧ pre.length = i ∧ x.data.snum = n ∧
            ∀ y ∈ pre, y.data.snum ≠ n :=
  ⟨get_of_mem_snums (mem_snums_run ops _ hops (mem_snums_create id pin pullUp v alloc reg hc)),
    fun n r => ⟨get_eq_none_iff n r, get_eq_some_iff n r⟩⟩

/-- C2 at `create(5,2,1)` on the empty list, followed by `create(6,3,0)`,
`remove(6)`, `create(5,4,0)`. -/
theorem C2_get_after_create_witness :
    (∃ i s, get 5 (run [Op.create 6 3 0 1 true, Op.remove 6, Op.create 5 4 0 1 false]
          (create 5 2 1 1 true []).reg) = some i ∧
        (run [Op.create 6 3 0 1 true, Op.remove 6, Op.create 5 4 0 1 false]
          (create 5 2 1 1 true []).reg)[i]? = some s ∧ s.data.snum = 5) ∧
      ∀ (n : Int) (r : List Sensor),
        (get n r = none ↔ ∀ s ∈ r, s.data.snum ≠ n) ∧
        ∀ i, get n r = some i ↔
          ∃ pre x post, r = pre ++ x :: post ∧ pre.length = i ∧ x.data.snum = n ∧
            ∀ y ∈ pre, y.data.snum ≠ n :=
  C2_get_after_create [] 5 2 1 1 true
    [Op.create 6 3 0 1 true, Op.remove 6, Op.create 5 4 0 1 false] (by decide) (by decide)

theorem reachable_apply (o : Op) {reg : List Sensor} (h : Reachable reg) :
    Reachable (o.apply reg) := by
  obtain ⟨ops, rfl⟩ := h
  refine ⟨ops ++ [o], ?_⟩
  generalize ([] : List Sensor) = r
  induction ops generalizing r with
  | nil => simp [run]
  | cons a ops ih => simpa [run] using ih (a.apply r)

/-- C4: for every list with no node of `snum = id`, a `create(id,pin,pullUp)`
whose allocation succeeds yields the old list with one node added at the
tail: the nodes that were there keep their place and all their fields, the
new last node has `snum = id`, `pin = pin`, `pullUp` 0 if `pullUp` is 0 and 1
otherwise, `signal = 1`, `active = false`; the call returns the new node and
prints `<O>` when `v` is 1. -/
theorem C4_create_appends (reg : List Sensor) (id pin pullUp v : Int)
    (h : ∀ s ∈ reg, s.data.snum ≠ id) :
    (create id pin pullUp v true reg).reg =
        reg ++ [⟨⟨id, pin, if pullUp = 0 then 0 else 1⟩, 1, false⟩] ∧
      (create id pin pullUp v true reg).ret = some reg.length ∧
      (v = 1 → (create id pin pullUp v true reg).out = "<O>") := by
  rw [create_absent_ok _ _ _ _ _ ((get_eq_none_iff _ _).2 h)]
  refine ⟨by simp [LOW, HIGH], rfl, fun hv => by simp [hv]⟩

/-- C4 at the list holding sensors 4 and 6, with `create(5,2,7)`. -/
theorem C4_create_appends_witness :
    (∀ s ∈ [(⟨⟨4, 9, 1⟩, 1 / 3, true⟩ : Sensor), ⟨⟨6, 8, 0⟩, 1, false⟩], s.data.snum ≠ 5) ∧
    (create 5 2 7 1 true [⟨⟨4, 9, 1⟩, 1 / 3, true⟩, ⟨⟨6, 8, 0⟩, 1, false⟩]).reg =
      [⟨⟨4, 9, 1⟩, 1 / 3, true⟩, ⟨⟨6, 8, 0⟩, 1, false⟩]
        ++ [⟨⟨5, 2, if (7 : Int) = 0 then 0 else 1⟩, 1, false⟩] ∧
    (create 5 2 7 1 true [⟨⟨4, 9, 1⟩, 1 / 3, true⟩, ⟨⟨6, 8, 0⟩, 1, false⟩]).ret =
      some [(⟨⟨4, 9, 1⟩, 1 / 3, true⟩ : Sensor), ⟨⟨6, 8, 0⟩, 1, false⟩].length ∧
    ((1 : Int) = 1 →
      (create 5 2 7 1 true [⟨⟨4, 9, 1⟩, 1 / 3, true⟩, ⟨⟨6, 8, 0⟩, 1, false⟩]).out = "<O>") :=
  ⟨by simp, C4_create_appends [⟨⟨4, 9, 1⟩, 1 / 3, true⟩, ⟨⟨6, 8, 0⟩, 1, false⟩] 5 2 7 1
    (by simp)⟩

/-- C6: `remove(n)` prints `<X>` if and only if no node of the list has
`snum = n`, and then the list is left as it was, every node with every
field. -/
theorem C6_remove_absent (reg : List Sensor) (n : Int) :
    ((remove n reg).2 = "<X>" ↔ ∀ s ∈ reg, s.data.snum ≠ n) ∧
      ((remove n reg).2 = "<X>" → (remove n reg).1 = reg) := by
  rw [← get_eq_none_iff, remove_eq]
  cases hg : get n reg with
  | none => simp
  | some i => simp

/-- C6 at the list of sensors 4 and 6 with `remove(5)`. -/
theorem C6_remove_absent_witness :
    remove 5 [⟨⟨4, 9, 1⟩, 1 / 3, true⟩, ⟨⟨6, 8, 0⟩, 1, false⟩] =
      ([⟨⟨4, 9, 1⟩, 1 / 3, true⟩, ⟨⟨6, 8, 0⟩, 1, false⟩], "<X>") := by
  have h := C6_remove_absent [⟨⟨4, 9, 1⟩, 1 / 3, true⟩, ⟨⟨6, 8, 0⟩, 1, false⟩] 5
  have hx := h.1.2 (by simp)
  exact Prod.ext (h.2 hx) hx

/-- C8: for every list with no node of `snum = id`, a `create(id,..)` whose
allocation fails returns `NULL`, leaves the list as it was, touches no pin,
and prints exactly `<X>` when `v` is 1 (nothing otherwise). And `create`
returns `NULL` only so: exactly when the allocation fails and no node has
`snum = id`. -/
theorem C8_alloc_failure (reg : List Sensor) (id pin pullUp v : Int) :
    ((∀ s ∈ reg, s.data.snum ≠ id) →
        (create id pin pullUp v false reg).ret = none ∧
        (create id pin pullUp v false reg).reg = reg ∧
        (create id pin pullUp v false reg).written = [] ∧
        (create id pin pullUp v false reg).out = if v = 1 then "<X>" else "") ∧
      ∀ alloc, (create id pin pullUp v alloc reg).ret = none ↔
        (alloc = false ∧ ∀ s ∈ reg, s.data.snum ≠ id) := by
  constructor
  · intro h
    rw [create_absent_fail _ _ _ _ _ ((get_eq_none_iff _ _).2 h)]
    exact ⟨rfl, rfl, rfl, rfl⟩
  · intro alloc
    rw [← get_eq_none_iff]
    cases hg : get id reg with
    | none =>
      cases alloc with
      | false => rw [create_absent_fail _ _ _ _ _ hg]; simp
      | true => rw [create_absent_ok _ _ _ _ _ hg]; simp
    | some i => rw [create_present _ _ _ _ _ _ _ hg]; simp

/-- C8 at the list of sensors 4 and 6 with `create(5,2,1,1)` and a failing
allocation. -/
theorem C8_alloc_failure_witness :
    (create 5 2 1 1 false [⟨⟨4, 9, 1⟩, 1 / 3, true⟩, ⟨⟨6, 8, 0⟩, 1, false⟩]).ret = none ∧
    (create 5 2 1 1 false [⟨⟨4, 9, 1⟩, 1 / 3, true⟩, ⟨⟨6, 8, 0⟩, 1, false⟩]).reg =
      [⟨⟨4, 9, 1⟩, 1 / 3, true⟩, ⟨⟨6, 8, 0⟩, 1, false⟩] ∧
    (create 5 2 1 1 false [⟨⟨4, 9, 1⟩, 1 / 3, true⟩, ⟨⟨6, 8, 0⟩, 1, false⟩]).written = [] ∧
    (create 5 2 1 1 false [⟨⟨4, 9, 1⟩, 1 / 3, true⟩, ⟨⟨6, 8, 0⟩, 1, false⟩]).out = "<X>" :=
  (C8_alloc_failure [⟨⟨4, 9, 1⟩, 1 / 3, true⟩, ⟨⟨6, 8, 0⟩, 1, false⟩] 5 2 1 1).1 (by simp)

/-! ## Decimal numerals and `sscanf` -/

/-- The blend of a value in [0,1] with a sample 0 or 1 is in [0,1]. -/
theorem blend_range (d : ℚ) (hd0 : 0 < d) (hd1 : d < 1) (sig : ℚ) (x : Int)
    (h0 : 0 ≤ sig) (h1 : sig ≤ 1) (hx : x = 0 ∨ x = 1) :
    0 ≤ sig * (1 - d) + (x : ℚ) * d ∧ sig * (1 - d) + (x : ℚ) * d ≤ 1 := by
  rcases hx with rfl | rfl
  · constructor
    · have := mul_nonneg h0 (by linarith : (0 : ℚ) ≤ 1 - d)
      simpa using this
    · have : sig * (1 - d) ≤ 1 * (1 - d) := mul_le_mul_of_nonneg_right h1 (by linarith)
      simp only [Int.cast_zero, zero_mul, add_zero]
      linarith
  · constructor
    · have := mul_nonneg h0 (by linarith : (0 : ℚ) ≤ 1 - d)
      simp only [Int.cast_one, one_mul]
      linarith
    · have : sig * (1 - d) ≤ 1 * (1 - d) := mul_le_mul_of_nonneg_right h1 (by linarith)
      simp only [Int.cast_one, one_mul]
      linarith

theorem signalsInRange_op (o : Op) (reg : List Sensor) (h : SignalsInRange reg) :
    SignalsInRange (o.apply reg) := by
  cases o with
  | create snum pin pullUp v alloc =>
    have hnew : ∀ s ∈ reg ++ [(⟨⟨snum, pin, if pullUp = 0 then LOW else HIGH⟩, 1, false⟩ : Sensor)],
        0 ≤ s.signal ∧ s.signal ≤ 1 := by
      intro s hs
      rcases List.mem_append.1 hs with hs | hs
      · exact h s hs
      · rw [List.mem_singleton.1 hs]; norm_num
    simp only [Op.apply]
    cases hg : get snum reg with
    | none =>
      cases alloc with
      | false => rw [create_absent_fail _ _ _ _ _ hg]; exact h
      | true => rw [create_absent_ok _ _ _ _ _ hg]; exact hnew
    | some i =>
      rw [create_present _ _ _ _ _ _ _ hg]
      intro s hs
      rcases List.mem_or_eq_of_mem_set hs with hs | hs
      · exact h s hs
      · rw [hs]; norm_num
  | remove n =>
    simp only [Op.apply, remove_eq]
    cases hg : get n reg with
    | none => exact h
    | some i => exact fun s hs => h s ((List.eraseIdx_sublist reg i).subset hs)

theorem signalsInRange_check (d : ℚ) (hd0 : 0 < d) (hd1 : d < 1) (rd : Int → Int)
    (hrd : ∀ p, rd p = 0 ∨ rd p = 1) (reg : List Sensor) (h : SignalsInRange reg) :
    SignalsInRange (check d rd reg).1 := by
  intro s hs
  rw [(check_eq_map d rd reg).1, List.mem_map] at hs
  obtain ⟨a, ha, rfl⟩ := hs
  rw [checkOne_signal]
  exact blend_range d hd0 hd1 _ _ (h a ha).1 (h a ha).2 (hrd _)

theorem signalsInRange_runSteps (d : ℚ) (hd0 : 0 < d) (hd1 : d < 1) (steps : List Step)
    (hs : ∀ rd, Step.check rd ∈ steps → ∀ p, rd p = 0 ∨ rd p = 1) (reg : List Sensor)
    (h : SignalsInRange reg) : SignalsInRange (runSteps d steps reg) := by
  induction steps generalizing reg with
  | nil => exact h
  | cons st sts ih =>
    refine ih (fun rd hrd => hs rd (List.mem_cons_of_mem _ hrd)) _ ?_
    cases st with
    | op o => exact signalsInRange_op o reg h
    | check rd => exact signalsInRange_check d hd0 hd1 rd (hs rd (List.mem_cons_self _ _)) reg h

/-- C9: for every constant `d` with `0 < d < 1`: a node whose `signal` is in
[0,1], given a sample 0 or 1, gets from `check` the signal
`signal*(1-d) + sample*d`, which is in [0,1] again; hence after every
sequence of `create` and `remove` calls and `check` cycles from the empty
list, the pins reading 0 or 1 in every cycle, every node has its `signal` in
[0,1] (exact rational arithmetic). -/
theorem C9_signal_range (d : ℚ) (hd0 : 0 < d) (hd1 : d < 1) :
    (∀ (s : Sensor) (x : Int), 0 ≤ s.signal → s.signal ≤ 1 → (x = 0 ∨ x = 1) →
      (checkOne d x s).1.signal = s.signal * (1 - d) + (x : ℚ) * d ∧
        0 ≤ (checkOne d x s).1.signal ∧ (checkOne d x s).1.signal ≤ 1) ∧
    ∀ steps : List Step, (∀ rd, Step.check rd ∈ steps → ∀ p, rd p = 0 ∨ rd p = 1) →
      ∀ s ∈ runSteps d steps [], 0 ≤ s.signal ∧ s.signal ≤ 1 := by
  refine ⟨fun s x h0 h1 hx => ⟨checkOne_signal d x s, ?_⟩, fun steps hs =>
    signalsInRange_runSteps d hd0 hd1 steps hs [] (fun s hs => absurd hs (List.not_mem_nil s))⟩
  rw [checkOne_signal]
  exact blend_range d hd0 hd1 _ _ h0 h1 hx

/-- C9 at `d = 3/100`: a node at signal 1/2 with sample 1, and the list after
`create(7,2,1)` and two cycles of `check` with all pins at 0. -/
theorem C9_signal_range_witness :
    (0 : ℚ) < 3 / 100 ∧ (3 / 100 : ℚ) < 1 ∧
    ((checkOne (3 / 100) 1 ⟨⟨7, 2, 1⟩, 1 / 2, true⟩).1.signal
        = (1 / 2 : ℚ) * (1 - 3 / 100) + ((1 : Int) : ℚ) * (3 / 100) ∧
      0 ≤ (checkOne (3 / 100) 1 ⟨⟨7, 2, 1⟩, 1 / 2, true⟩).1.signal ∧
      (checkOne (3 / 100) 1 ⟨⟨7, 2, 1⟩, 1 / 2, true⟩).1.signal ≤ 1) ∧
    ∀ s ∈ runSteps (3 / 100)
        [Step.op (Op.create 7 2 1 1 true), Step.check (fun _ => 0), Step.check (fun _ => 0)] [],
      0 ≤ s.signal ∧ s.signal ≤ 1 :=
  ⟨by norm_num, by norm_num,
    (C9_signal_range (3 / 100) (by norm_num) (by norm_num)).1 ⟨⟨7, 2, 1⟩, 1 / 2, true⟩ 1
      (by norm_num) (by norm_num) (Or.inr rfl),
    (C9_signal_range (3 / 100) (by norm_num) (by norm_num)).2
      [Step.op (Op.create 7 2 1 1 true), Step.check (fun _ => 0), Step.check (fun _ => 0)]
      (by
        intro rd h p
        simp only [List.mem_cons, Step.check.injEq, List.mem_singleton, List.not_mem_nil,
          or_false, false_or, reduceCtorEq] at h
        rcases h with h | h <;> (left; rw [h]))⟩

/-! ## Runs of `check` on one node -/

theorem track_data (d : ℚ) (xs : List Int) (s : Sensor) : (track d xs s).1.data = s.data := by
  induction xs generalizing s with
  | nil => rfl
  | cons x xs ih => simp only [track, ih, checkOne_data]

/-- The signal after `n` cycles with the sample held at `c`. -/
theorem track_replicate_signal (d : ℚ) (c : Int) (n : Nat) (s : Sensor) :
    (track d (List.replicate n c) s).1.signal = (c : ℚ) + (s.signal - c) * (1 - d) ^ n := by
  induction n generalizing s with
  | zero => simp [track]
  | succ n ih =>
    simp only [List.replicate_succ, track, ih, checkOne_signal]
    ring

/-- Over successive cycles of `check`, every node of the list lives the life
`track` describes, with the samples of its own pin. -/
theorem cycles_nodes (d : ℚ) (rds : List (Int → Int)) (reg : List Sensor) :
    (cycles d rds reg).1 =
      reg.map (fun s => (track d (rds.map fun rd => rd s.data.pin) s).1) := by
  induction rds generalizing reg with
  | nil => simp [cycles, track]
  | cons rd rds ih =>
    simp only [cycles, ih, (check_eq_map d rd reg).1, List.map_map, List.map_cons, track]
    apply List.map_congr_left
    intro s _
    simp only [Function.comp, checkOne_data]

/-- With the sample held at `c`, 0 or 1, the signal comes as close to `c` as
one wants. -/
theorem track_replicate_tendsto (d : ℚ) (hd0 : 0 < d) (hd1 : d < 1) (s : Sensor)
    (h0 : 0 ≤ s.signal) (h1 : s.signal ≤ 1) (c : Int) (hc : c = 0 ∨ c = 1)
    (ε : ℚ) (hε : 0 < ε) :
    ∃ N, ∀ n, N ≤ n → |(track d (List.replicate n c) s).1.signal - (c : ℚ)| < ε := by
  have hq0 : (0 : ℚ) ≤ 1 - d := by linarith
  have hq1 : 1 - d < 1 := by linarith
  obtain ⟨N, hN⟩ : ∃ n : ℕ, (1 - d) ^ n < ε := exists_pow_lt_of_lt_one hε hq1
  refine ⟨N, fun n hn => ?_⟩
  have hle : (1 - d) ^ n ≤ (1 - d) ^ N := pow_le_pow_of_le_one hq0 hq1.le hn
  have hp : (0 : ℚ) ≤ (1 - d) ^ n := pow_nonneg hq0 n
  have habs : |s.signal - (c : ℚ)| ≤ 1 := by
    rw [abs_le]
    rcases hc with rfl | rfl <;> constructor <;> push_cast <;> linarith
  rw [track_replicate_signal, add_sub_cancel_left, abs_mul, abs_of_nonneg hp]
  calc |s.signal - (c : ℚ)| * (1 - d) ^ n ≤ 1 * (1 - d) ^ n :=
        mul_le_mul_of_nonneg_right habs hp
    _ = (1 - d) ^ n := one_mul _
    _ ≤ (1 - d) ^ N := hle
    _ < ε := hN

/-- One step of `check` ends in one of three ways. -/
theorem checkOne_cases (d : ℚ) (x : Int) (s : Sensor) :
    (s.active = false ∧ (checkOne d x s).1.active = true ∧
        (checkOne d x s).1.signal < 1 / 2 ∧
        (checkOne d x s).2 = "<Q" ++ toString s.data.snum ++ ">") ∨
      (s.active = true ∧ (checkOne d x s).1.active = false ∧
        (checkOne d x s).1.signal > 9 / 10 ∧
        (checkOne d x s).2 = "<q" ++ toString s.data.snum ++ ">") ∨
      ((checkOne d x s).1.active = s.active ∧
        (s.active = false → 1 / 2 ≤ (checkOne d x s).1.signal) ∧
        (s.active = true → (checkOne d x s).1.signal ≤ 9 / 10) ∧
        (checkOne d x s).2 = "") := by
  simp only [checkOne]
  split_ifs with h1 h2
  · simp only [Bool.and_eq_true, Bool.not_eq_true', decide_eq_true_eq] at h1
    exact Or.inl ⟨h1.1, rfl, h1.2, rfl⟩
  · simp only [Bool.and_eq_true, decide_eq_true_eq] at h2
    exact Or.inr (Or.inl ⟨h2.1, rfl, h2.2, rfl⟩)
  · simp only [Bool.and_eq_true, Bool.not_eq_true', decide_eq_true_eq, not_and, not_lt] at h1 h2
    exact Or.inr (Or.inr ⟨rfl, h1, fun ha => by simpa using h2 ha, rfl⟩)

/-- A property of nodes that holds of every node `create` writes holds of all
nodes after a call of `create` or `remove` if it held of all nodes before. -/
theorem forall_mem_apply (P : Sensor → Prop)
    (hnew : ∀ snum pin pullUp : Int, P ⟨⟨snum, pin, if pullUp = 0 then LOW else HIGH⟩, 1, false⟩)
    (o : Op) (reg : List Sensor) (h : ∀ s ∈ reg, P s) : ∀ s ∈ o.apply reg, P s := by
  cases o with
  | create snum pin pullUp v alloc =>
    simp only [Op.apply]
    cases hg : get snum reg with
    | none =>
      cases alloc with
      | false => rw [create_absent_fail _ _ _ _ _ hg]; exact h
      | true =>
        rw [create_absent_ok _ _ _ _ _ hg]
        intro s hs
        rcases List.mem_append.1 hs with hs | hs
        · exact h s hs
        · rw [List.mem_singleton.1 hs]; exact hnew _ _ _
    | some i =>
      rw [create_present _ _ _ _ _ _ _ hg]
      intro s hs
      rcases List.mem_or_eq_of_mem_set hs with hs | hs
      · exact h s hs
      · rw [hs]; exact hnew _ _ _
  | remove n =>
    simp only [Op.apply, remove_eq]
    cases hg : get n reg with
    | none => exact h
    | some i => exact fun s hs => h s ((List.eraseIdx_sublist reg i).subset hs)

theorem forall_mem_run (P : Sensor → Prop)
    (hnew : ∀ snum pin pullUp : Int, P ⟨⟨snum, pin, if pullUp = 0 then LOW else HIGH⟩, 1, false⟩)
    (ops : List Op) (reg : List Sensor) (h : ∀ s ∈ reg, P s) : ∀ s ∈ run ops reg, P s := by
  induction ops generalizing reg with
  | nil => exact h
  | cons o ops ih => exact ih _ (forall_mem_apply P hnew o reg h)

theorem note_ne_empty (p t : String) (hp : p.length = 2) : p ++ t ++ ">" ≠ "" := by
  intro h
  have := congrArg String.length h
  simp only [String.length_append, hp] at this
  have h0 : "".length = 0 := rfl
  omega

theorem track_eq_join_trace (d : ℚ) (xs : List Int) (s : Sensor) :
    (track d xs s).2 = (trace d xs s).foldr (fun o acc => o ++ acc) "" := by
  induction xs generalizing s with
  | nil => rfl
  | cons x xs ih => simp only [track, trace, List.foldr_cons, ih]

theorem trace_length (d : ℚ) (xs : List Int) (s : Sensor) :
    (trace d xs s).length = xs.length := by
  induction xs generalizing s with
  | nil => rfl
  | cons x xs ih => simp only [trace, List.length_cons, ih]

/-- The notifications of a node alternate, the first being `<Q id>` for a
node that is not active and `<q id>` for one that is. -/
theorem trace_alternates (d : ℚ) (xs : List Int) (s : Sensor) :
    ∃ n, (trace d xs s).filter (fun o => decide (o ≠ "")) =
      if s.active = true then
        alternating ("<q" ++ toString s.data.snum ++ ">") ("<Q" ++ toString s.data.snum ++ ">") n
      else
        alternating ("<Q" ++ toString s.data.snum ++ ">") ("<q" ++ toString s.data.snum ++ ">") n
    := by
  induction xs generalizing s with
  | nil => exact ⟨0, by simp [trace, alternating]⟩
  | cons x xs ih =>
    obtain ⟨n, hn⟩ := ih (checkOne d x s).1
    rw [checkOne_data] at hn
    have hQ := note_ne_empty "<Q" (toString s.data.snum) rfl
    have hq := note_ne_empty "<q" (toString s.data.snum) rfl
    rcases checkOne_cases d x s with ⟨h1, h2, _, h4⟩ | ⟨h1, h2, _, h4⟩ | ⟨h1, _, _, h4⟩
    · refine ⟨n + 1, ?_⟩
      rw [trace, h4, List.filter_cons_of_pos (by simpa using hQ), hn, h2, h1]
      simp [alternating]
    · refine ⟨n + 1, ?_⟩
      rw [trace, h4, List.filter_cons_of_pos (by simpa using hq), hn, h2, h1]
      simp [alternating]
    · refine ⟨n, ?_⟩
      rw [trace, h4, List.filter_cons_of_neg (by simp), hn, h1]

/-- C19: for every node and every sequence of samples, over a run of cycles
of `check`: in each cycle what is printed for the node is nothing, `<Q id>`
or `<q id>`, one notification at most; all that is printed for the node is
these in order; the notifications alternate between `<Q id>` and `<q id>`,
beginning with `<Q id>` for a node that is not active, as after `create`
(and with `<q id>` for one that is). And a cycle of `check` leaves the
`snum`, `pin` and `pullUp` of every node, and the number and order of the
nodes, as they were. -/
theorem C19_alternation (d : ℚ) (xs : List Int) (s : Sensor) :
    (trace d xs s).length = xs.length ∧
    (∀ o ∈ trace d xs s, o = "" ∨ o = "<Q" ++ toString s.data.snum ++ ">" ∨
      o = "<q" ++ toString s.data.snum ++ ">") ∧
    (track d xs s).2 = (trace d xs s).foldr (fun o acc => o ++ acc) "" ∧
    (∃ n, (trace d xs s).filter (fun o => decide (o ≠ "")) =
      if s.active = true then
        alternating ("<q" ++ toString s.data.snum ++ ">") ("<Q" ++ toString s.data.snum ++ ">") n
      else
        alternating ("<Q" ++ toString s.data.snum ++ ">") ("<q" ++ toString s.data.snum ++ ">") n)
    ∧ (∀ (rd : Int → Int) (reg : List Sensor),
      (check d rd reg).1.map (fun s => s.data) = reg.map (fun s => s.data))
    ∧ ∀ (rds : List (Int → Int)) (reg : List Sensor),
      (cycles d rds reg).1.map (fun s => s.data) = reg.map (fun s => s.data) ∧
      (cycles d rds reg).1 =
        reg.map (fun s => (track d (rds.map fun rd => rd s.data.pin) s).1) := by
  refine ⟨trace_length d xs s, ?_, track_eq_join_trace d xs s, trace_alternates d xs s, ?_, ?_⟩
  · induction xs generalizing s with
    | nil => intro o ho; simp [trace] at ho
    | cons x xs ih =>
      intro o ho
      rw [trace, List.mem_cons] at ho
      rcases ho with rfl | ho
      · rcases checkOne_cases d x s with ⟨_, _, _, h4⟩ | ⟨_, _, _, h4⟩ | ⟨_, _, _, h4⟩
        · exact Or.inr (Or.inl h4)
        · exact Or.inr (Or.inr h4)
        · exact Or.inl h4
      · have := ih (checkOne d x s).1 o ho
        rwa [checkOne_data] at this
  · intro rd reg
    rw [(check_eq_map d rd reg).1, List.map_map]
    apply List.map_congr_left
    intro a _
    simp only [Function.comp, checkOne_data]
  · intro rds reg
    refine ⟨?_, cycles_nodes d rds reg⟩
    rw [cycles_nodes, List.map_map]
    apply List.map_congr_left
    intro a _
    simp only [Function.comp, track_data]

/-- C19 at `d = 1/2`: a node just created, with the samples 0, 0, 1, 1, 1, 1,
0, 0. -/
theorem C19_alternation_witness :
    trace (1 / 2) [0, 0, 1, 1, 1, 1, 0, 0] ⟨⟨7, 2, 1⟩, 1, false⟩ =
      ["", "<Q7>", "", "", "<q7>", "", "<Q7>", ""] ∧
    (track (1 / 2) [0, 0, 1, 1, 1, 1, 0, 0] ⟨⟨7, 2, 1⟩, 1, false⟩).2 = "<Q7><q7><Q7>" := by
  have h := C19_alternation (1 / 2) [0, 0, 1, 1, 1, 1, 0, 0] ⟨⟨7, 2, 1⟩, 1, false⟩
  have ht : trace (1 / 2) [0, 0, 1, 1, 1, 1, 0, 0] ⟨⟨7, 2, 1⟩, 1, false⟩ =
      ["", "<Q7>", "", "", "<q7>", "", "<Q7>", ""] := by
    norm_num [trace, checkOne]
    decide
  refine ⟨ht, ?_⟩
  rw [h.2.2.1, ht]
  decide

/-! ## The predecessor pointer of `remove` -/

/-- The use `remove` makes of `pp`, by where `get` finds the node: none when
there is no node or it is the first, and otherwise `pp` is the node before. -/
theorem removeReadsPp_eq (n : Int) (reg : List Sensor) :
    removeReadsPp n reg =
      match get n reg with
      | none => none
      | some 0 => none
      | some (k + 1) => some (some k) := by
  unfold removeReadsPp
  rw [removeLoop_eq]
  cases hg : get n reg with
  | none => rfl
  | some k =>
    cases k with
    | zero => rfl
    | succ k => simp

/-- C16, as the code has it: `remove(n)` never reads `pp` before it is
assigned. When the node to remove is the first of the list, `pp` is not read
at all (`tt==firstSensor` holds and the head is advanced). `pp` is read only
when the node found is at a later position `p + 1`, and `pp` is then the node
at position `p`, which the loop assigned. -/
theorem C16_pp_assigned (n : Int) (reg : List Sensor) :
    removeReadsPp n reg ≠ some none ∧
    (∀ s rest, reg = s :: rest → s.data.snum = n →
      removeReadsPp n reg = none ∧ remove n reg = (rest, "<O>")) ∧
    ∀ pp, removeReadsPp n reg = some pp →
      ∃ p, pp = some p ∧ get n reg = some (p + 1) ∧
        remove n reg = (reg.take (p + 1) ++ reg.drop (p + 2), "<O>") := by
  rw [removeReadsPp_eq]
  refine ⟨?_, ?_, ?_⟩
  · cases hg : get n reg with
    | none => simp
    | some k => cases k <;> simp
  · intro s rest hr hs
    subst hr
    have hg : get n (s :: rest) = some 0 := by simp [get, hs]
    rw [hg, remove_eq, hg]
    exact ⟨rfl, rfl⟩
  · intro pp hpp
    cases hg : get n reg with
    | none => rw [hg] at hpp; simp at hpp
    | some k =>
      cases k with
      | zero => rw [hg] at hpp; simp at hpp
      | succ k =>
        rw [hg] at hpp
        simp only [Option.some.injEq] at hpp
        refine ⟨k, hpp.symm, rfl, ?_⟩
        rw [remove_eq, hg]
        simp only [List.eraseIdx_eq_take_drop_succ]

/-- C16, as the specification states it, fails: there is no list whose first node has
`snum = n` on which `remove(n)` reads `pp` while it is unassigned. -/
theorem C16_pp_unassigned_counterexample :
    ¬ ∃ (reg : List Sensor) (n : Int),
      (∃ s rest, reg = s :: rest ∧ s.data.snum = n) ∧ removeReadsPp n reg = some none := by
  rintro ⟨reg, n, _, h⟩
  rw [removeReadsPp_eq] at h
  cases hg : get n reg with
  | none => rw [hg] at h; simp at h
  | some k => cases k <;> (rw [hg] at h; simp at h)

/-- C16 on the lists of sensors 5, 6 and 4, 5, 6 with `remove(5)`: `pp` is
not read when 5 is the head, and is the node before when it is not. -/
theorem C16_pp_assigned_witness :
    removeReadsPp 5 [⟨⟨5, 2, 1⟩, 1, false⟩, ⟨⟨6, 8, 0⟩, 1, false⟩] = none ∧
    removeReadsPp 5 [⟨⟨4, 9, 1⟩, 1, false⟩, ⟨⟨5, 2, 1⟩, 1, false⟩, ⟨⟨6, 8, 0⟩, 1, false⟩]
      = some (some 0) := by
  refine ⟨((C16_pp_assigned 5 [⟨⟨5, 2, 1⟩, 1, false⟩, ⟨⟨6, 8, 0⟩, 1, false⟩]).2.1
    _ _ rfl rfl).1, by decide⟩

/-! ## The dispatch of `parse` and the listing of `show` -/

theorem join_cons (a : String) (l : List String) :
    String.join (a :: l) = a ++ String.join l := by
  have hf : ∀ (l : List String) (acc : String),
      List.foldl (fun r s => r ++ s) acc l = acc ++ List.foldl (fun r s => r ++ s) "" l := by
    intro l
    induction l with
    | nil => intro acc; simp
    | cons b l ihl =>
      intro acc
      rw [List.foldl_cons, List.foldl_cons, ihl (acc ++ b), ihl ("" ++ b)]
      simp [String.append_assoc]
  simp only [String.join, List.foldl_cons]
  rw [hf l ("" ++ a)]
  simp

/-- The listing of a list that is not empty starts with `<Q`. -/
theorem showCmd_cons (s : Sensor) (rest : List Sensor) :
    ∃ t : String, showCmd (s :: rest) = "<Q" ++ t := by
  refine ⟨toString s.data.snum ++ " " ++ toString s.data.pin ++ " "
    ++ toString s.data.pullUp ++ ">" ++ String.join (rest.map fun s =>
      "<Q" ++ toString s.data.snum ++ " " ++ toString s.data.pin ++ " "
        ++ toString s.data.pullUp ++ ">"), ?_⟩
  simp only [showCmd, List.map_cons, join_cons, String.append_assoc]

theorem showCmd_ne_empty (reg : List Sensor) : showCmd reg ≠ "" := by
  cases reg with
  | nil => decide
  | cons s rest =>
    obtain ⟨t, ht⟩ := showCmd_cons s rest
    intro h
    have := congrArg String.length (ht.symm.trans h)
    simp only [String.length_append] at this
    have h2 : "<Q".length = 2 := rfl
    have h0 : "".length = 0 := rfl
    omega

theorem create_out_cases (n s m : Int) (alloc : Bool) (reg : List Sensor) :
    (create n s m 1 alloc reg).out = "<O>" ∨ (create n s m 1 alloc reg).out = "<X>" := by
  cases hg : get n reg with
  | none =>
    cases alloc with
    | false => rw [create_absent_fail _ _ _ _ _ hg]; right; rfl
    | true => rw [create_absent_ok _ _ _ _ _ hg]; left; rfl
  | some i => rw [create_present _ _ _ _ _ _ _ hg]; left; rfl

theorem remove_out_cases (n : Int) (reg : List Sensor) :
    (remove n reg).2 = "<O>" ∨ (remove n reg).2 = "<X>" := by
  rw [remove_eq]
  cases get n reg with
  | none => right; rfl
  | some i => left; rfl

/-- What `sscanf` can report: end of input, or up to three values. -/
theorem sscanf_cases (c : List Char) :
    sscanf c = Scanned.eof ∨ sscanf c = Scanned.assigned [] ∨
      (∃ n, sscanf c = Scanned.assigned [n]) ∨
      (∃ n s, sscanf c = Scanned.assigned [n, s]) ∨
      ∃ n s m, sscanf c = Scanned.assigned [n, s, m] := by
  simp only [sscanf]
  cases scanInt c with
  | inputFailure => simp
  | matchFailure => simp
  | ok n r1 =>
    dsimp only
    cases scanInt r1 with
    | inputFailure => simp
    | matchFailure => simp
    | ok s r2 =>
      dsimp only
      cases scanInt r2 with
      | inputFailure => simp
      | matchFailure => simp
      | ok m r3 => simp

/-- `sscanf` reports the end of input exactly on a payload that is empty or
all white space. -/
theorem sscanf_eof_iff (c : List Char) : sscanf c = Scanned.eof ↔ skipSpace c = [] := by
  have h1 : scanInt c = Conv.inputFailure ↔ skipSpace c = [] := by
    simp only [scanInt]
    cases skipSpace c with
    | nil => simp
    | cons a rest =>
      simp only [reduceCtorEq, iff_false]
      split
      · simp
      · split <;> simp
  rw [← h1]
  simp only [sscanf]
  cases scanInt c with
  | inputFailure => simp
  | matchFailure => simp
  | ok n r1 =>
    dsimp only
    cases scanInt r1 with
    | inputFailure => simp
    | matchFailure => simp
    | ok s r2 =>
      dsimp only
      cases scanInt r2 with
      | inputFailure => simp
      | matchFailure => simp
      | ok m r3 => simp

/-- C15, as the code has it: `parse` dispatches on what `sscanf` returns, the
number of integers converted, three at most. `sscanf` returns -1 (exactly on
a payload that is empty or all white space), 0, 1, 2 or 3. On 3 `parse` is
`create(n,s,m,1)`, which answers `<O>` or `<X>`; on 1 it is `remove(n)`, which
answers `<O>` or `<X>`; on -1 it is `show()`; on 2 it prints `<X>` and leaves
the list as it was. Every payload on which `sscanf` does not return 0, that
is every payload that is blank or starts with an integer, gets an answer
that is not empty. -/
theorem C15_dispatch (c : String) (alloc : Bool) (reg : List Sensor) :
    (sscanf c.toList = Scanned.eof ∨ sscanf c.toList = Scanned.assigned [] ∨
      (∃ n, sscanf c.toList = Scanned.assigned [n]) ∨
      (∃ n s, sscanf c.toList = Scanned.assigned [n, s]) ∨
      ∃ n s m, sscanf c.toList = Scanned.assigned [n, s, m]) ∧
    (sscanf c.toList = Scanned.eof ↔ skipSpace c.toList = []) ∧
    (∀ n s m, sscanf c.toList = Scanned.assigned [n, s, m] →
      parse c alloc reg = ((create n s m 1 alloc reg).reg, (create n s m 1 alloc reg).out) ∧
      ((create n s m 1 alloc reg).out = "<O>" ∨ (create n s m 1 alloc reg).out = "<X>")) ∧
    (∀ n, sscanf c.toList = Scanned.assigned [n] →
      parse c alloc reg = remove n reg ∧
      ((remove n reg).2 = "<O>" ∨ (remove n reg).2 = "<X>")) ∧
    (sscanf c.toList = Scanned.eof → parse c alloc reg = (reg, showCmd reg)) ∧
    (∀ n s, sscanf c.toList = Scanned.assigned [n, s] → parse c alloc reg = (reg, "<X>")) ∧
    ((sscanf c.toList).ret ≠ 0 → (parse c alloc reg).2 ≠ "") := by
  have h3 : ∀ n s m, sscanf c.toList = Scanned.assigned [n, s, m] →
      parse c alloc reg = ((create n s m 1 alloc reg).reg, (create n s m 1 alloc reg).out) :=
    fun n s m h => by simp only [parse, h]
  have h1 : ∀ n, sscanf c.toList = Scanned.assigned [n] → parse c alloc reg = remove n reg :=
    fun n h => by simp only [parse, h]
  have h0 : sscanf c.toList = Scanned.eof → parse c alloc reg = (reg, showCmd reg) :=
    fun h => by simp only [parse, h]
  have h2 : ∀ n s, sscanf c.toList = Scanned.assigned [n, s] →
      parse c alloc reg = (reg, "<X>") :=
    fun n s h => by simp only [parse, h]
  refine ⟨sscanf_cases _, sscanf_eof_iff _, fun n s m h => ⟨h3 n s m h, create_out_cases _ _ _ _ _⟩,
    fun n h => ⟨h1 n h, remove_out_cases _ _⟩, h0, h2, ?_⟩
  intro hret
  rcases sscanf_cases c.toList with h | h | ⟨n, h⟩ | ⟨n, s, h⟩ | ⟨n, s, m, h⟩
  · rw [h0 h]; exact showCmd_ne_empty reg
  · rw [h] at hret; exact absurd rfl hret
  · rw [h1 n h]
    rcases remove_out_cases n reg with ho | ho <;> rw [ho] <;> decide
  · rw [h2 n s h]
    show "<X>" ≠ ""
    decide
  · rw [h3 n s m h]
    rcases create_out_cases n s m alloc reg with ho | ho <;> (simp only [ho]; decide)

/-- C15, as the specification states it, fails on the payload `x`, which holds no
integer: `sscanf` returns 0, no case of the switch is taken, nothing is
printed and `show()` is not called. It fails also on `1 2 3 4`, four leading
integers: `sscanf` returns 3 and `create(1,2,3)` is called. -/
theorem C15_dispatch_counterexample :
    (sscanf "x".toList).ret = 0 ∧
    parse "x" true [⟨⟨5, 2, 1⟩, 1, false⟩] = ([⟨⟨5, 2, 1⟩, 1, false⟩], "") ∧
    showCmd [⟨⟨5, 2, 1⟩, 1, false⟩] = "<Q5 2 1>" ∧
    parse "1 2 3 4" true [] = ([⟨⟨1, 2, 1⟩, 1, false⟩], "<O>") := by
  decide

/-- C15 on the payloads of the four cases, on the list of sensor 5. -/
theorem C15_dispatch_witness :
    parse "6 3 0" true [⟨⟨5, 2, 1⟩, 1, false⟩]
      = ([⟨⟨5, 2, 1⟩, 1, false⟩, ⟨⟨6, 3, 0⟩, 1, false⟩], "<O>") ∧
    parse "5" true [⟨⟨5, 2, 1⟩, 1, false⟩] = ([], "<O>") ∧
    parse "" true [⟨⟨5, 2, 1⟩, 1, false⟩] = ([⟨⟨5, 2, 1⟩, 1, false⟩], "<Q5 2 1>") ∧
    parse "5 2" true [⟨⟨5, 2, 1⟩, 1, false⟩] = ([⟨⟨5, 2, 1⟩, 1, false⟩], "<X>") ∧
    (parse "5 2" true [⟨⟨5, 2, 1⟩, 1, false⟩]).2 ≠ "" :=
  ⟨by decide, by decide, by decide, by decide,
    (C15_dispatch "5 2" true [⟨⟨5, 2, 1⟩, 1, false⟩]).2.2.2.2.2.2 (by decide)⟩

theorem lookup_append {n : Int} (pre post : List Sensor)
    (hpre : ∀ y ∈ pre, y.data.snum ≠ n) : lookup n (pre ++ post) = lookup n post := by
  have hn : List.find? (fun s => decide (s.data.snum = n)) pre = none := by
    simp only [List.find?_eq_none, decide_eq_true_eq]
    exact hpre
  simp only [lookup, List.find?_append, hn, Option.none_or]

/-- On a reachable list every `pullUp` is 0 or 1. -/
theorem pullUp_of_reachable {reg : List Sensor} (h : Reachable reg) :
    ∀ s ∈ reg, s.data.pullUp = 0 ∨ s.data.pullUp = 1 := by
  obtain ⟨ops, rfl⟩ := h
  refine forall_mem_run (fun s => s.data.pullUp = 0 ∨ s.data.pullUp = 1) ?_ ops [] (by simp)
  intro snum pin pullUp
  by_cases hp : pullUp = 0 <;> simp [hp, LOW, HIGH]

theorem checkOneWith_exact (d : ℚ) (x : Int) (s : Sensor) :
    checkOneWith (exactArith d) x s = checkOne d x s := rfl

theorem trackWith_exact (d : ℚ) (xs : List Int) (s : Sensor) :
    trackWith (exactArith d) xs s = track d xs s := by
  induction xs generalizing s with
  | nil => rfl
  | cons x xs ih => simp only [trackWith, track, checkOneWith_exact, ih]

theorem checkOneWith_signal (a : Arith) (x : Int) (s : Sensor) :
    (checkOneWith a x s).1.signal = a.upd s.signal x := by
  simp only [checkOneWith]
  split_ifs <;> rfl

theorem checkOneWith_data (a : Arith) (x : Int) (s : Sensor) :
    (checkOneWith a x s).1.data = s.data := by
  simp only [checkOneWith]
  split_ifs <;> rfl

/-- One step of `check`, in any arithmetic, ends in one of three ways,
decided by the stored signal. -/
theorem checkOneWith_cases (a : Arith) (x : Int) (s : Sensor) :
    (s.active = false ∧ (checkOneWith a x s).1.active = true ∧
        (checkOneWith a x s).1.signal < 1 / 2 ∧
        (checkOneWith a x s).2 = "<Q" ++ toString s.data.snum ++ ">") ∨
      (s.active = true ∧ (checkOneWith a x s).1.active = false ∧
        (checkOneWith a x s).1.signal > a.hi ∧
        (checkOneWith a x s).2 = "<q" ++ toString s.data.snum ++ ">") ∨
      ((checkOneWith a x s).1.active = s.active ∧
        (s.active = false → 1 / 2 ≤ (checkOneWith a x s).1.signal) ∧
        (s.active = true → (checkOneWith a x s).1.signal ≤ a.hi) ∧
        (checkOneWith a x s).2 = "") := by
  simp only [checkOneWith]
  split_ifs with h1 h2
  · simp only [Bool.and_eq_true, Bool.not_eq_true', decide_eq_true_eq] at h1
    exact Or.inl ⟨h1.1, rfl, h1.2, rfl⟩
  · simp only [Bool.and_eq_true, decide_eq_true_eq] at h2
    exact Or.inr (Or.inl ⟨h2.1, rfl, h2.2, rfl⟩)
  · simp only [Bool.and_eq_true, Bool.not_eq_true', decide_eq_true_eq, not_and, not_lt] at h1 h2
    exact Or.inr (Or.inr ⟨rfl, h1, fun ha => by simpa using h2 ha, rfl⟩)

theorem checkOneWith_trigger (a : Arith) (x : Int) (s : Sensor) (ha : s.active = false)
    (hs : (checkOneWith a x s).1.signal < 1 / 2) :
    (checkOneWith a x s).1.active = true ∧
      (checkOneWith a x s).2 = "<Q" ++ toString s.data.snum ++ ">" := by
  rcases checkOneWith_cases a x s with ⟨_, h2, _, h4⟩ | ⟨h1, _⟩ | ⟨_, h2, _, _⟩
  · exact ⟨h2, h4⟩
  · rw [ha] at h1; exact absurd h1 (by simp)
  · exact absurd hs (not_lt.2 (h2 ha))

theorem checkOneWith_release (a : Arith) (x : Int) (s : Sensor) (ha : s.active = true)
    (hs : (checkOneWith a x s).1.signal > a.hi) :
    (checkOneWith a x s).1.active = false ∧
      (checkOneWith a x s).2 = "<q" ++ toString s.data.snum ++ ">" := by
  rcases checkOneWith_cases a x s with ⟨h1, _⟩ | ⟨_, h2, _, h4⟩ | ⟨_, _, h3, _⟩
  · rw [ha] at h1; exact absurd h1 (by simp)
  · exact ⟨h2, h4⟩
  · exact absurd hs (not_lt.2 (h3 ha))

theorem checkOneWith_quiet (a : Arith) (x : Int) (s : Sensor)
    (h : (s.active = false → 1 / 2 ≤ (checkOneWith a x s).1.signal) ∧
      (s.active = true → (checkOneWith a x s).1.signal ≤ a.hi)) :
    (checkOneWith a x s).1.active = s.active ∧ (checkOneWith a x s).2 = "" := by
  rcases checkOneWith_cases a x s with ⟨h1, _, h3, _⟩ | ⟨h1, _, h3, _⟩ | ⟨h1, _, _, h4⟩
  · exact absurd h3 (not_lt.2 (h.1 h1))
  · exact absurd h3 (not_lt.2 (h.2 h1))
  · exact ⟨h1, h4⟩

theorem trackWith_append (a : Arith) (xs ys : List Int) (s : Sensor) :
    trackWith a (xs ++ ys) s =
      ((trackWith a ys (trackWith a xs s).1).1,
        (trackWith a xs s).2 ++ (trackWith a ys (trackWith a xs s).1).2) := by
  induction xs generalizing s with
  | nil => simp [trackWith]
  | cons x xs ih =>
    rw [List.cons_append, trackWith, trackWith, ih]
    simp only [String.append_assoc]

theorem trackWith_data (a : Arith) (xs : List Int) (s : Sensor) :
    (trackWith a xs s).1.data = s.data := by
  induction xs generalizing s with
  | nil => rfl
  | cons x xs ih => simp only [trackWith, ih, checkOneWith_data]

theorem trackWith_replicate_add (a : Arith) (c : Int) (m j : Nat) (s : Sensor) :
    trackWith a (List.replicate (m + j) c) s =
      ((trackWith a (List.replicate j c) (trackWith a (List.replicate m c) s).1).1,
        (trackWith a (List.replicate m c) s).2 ++
          (trackWith a (List.replicate j c) (trackWith a (List.replicate m c) s).1).2) := by
  rw [List.replicate_add, trackWith_append]

theorem trackWith_replicate_one (a : Arith) (c : Int) (s : Sensor) :
    trackWith a (List.replicate 1 c) s = checkOneWith a c s := by
  simp [trackWith]

/-- The stored signal of a cycle is the update of the stored signal of the
cycle before. -/
theorem trackWith_succ_signal (a : Arith) (c : Int) (n : Nat) (s : Sensor) :
    (trackWith a (List.replicate (n + 1) c) s).1.signal
      = a.upd (trackWith a (List.replicate n c) s).1.signal c := by
  rw [trackWith_replicate_add, trackWith_replicate_one, checkOneWith_signal]

/-- A run in which the stored signal never crosses the threshold that
matters for the state the node is in: the state stays and nothing is
printed. -/
theorem trackWith_quiet (a : Arith) (xs : List Int) (s : Sensor)
    (h : ∀ k, 0 < k → k ≤ xs.length →
      (s.active = false → 1 / 2 ≤ (trackWith a (xs.take k) s).1.signal) ∧
      (s.active = true → (trackWith a (xs.take k) s).1.signal ≤ a.hi)) :
    (∀ k, (trackWith a (xs.take k) s).1.active = s.active) ∧ (trackWith a xs s).2 = "" := by
  induction xs generalizing s with
  | nil => exact ⟨fun k => by simp [trackWith], rfl⟩
  | cons x xs ih =>
    have h1 := h 1 (by norm_num) (by simp)
    simp only [List.take_succ_cons, List.take_zero, trackWith] at h1
    obtain ⟨ha, ho⟩ := checkOneWith_quiet a x s h1
    have ht := ih (checkOneWith a x s).1 (fun k hk hl => by
      have := h (k + 1) (by omega) (by simpa using hl)
      simpa only [List.take_succ_cons, trackWith, ha] using this)
    constructor
    · intro k
      cases k with
      | zero => simp [trackWith]
      | succ k => simp only [List.take_succ_cons, trackWith]; rw [ht.1 k, ha]
    · simp only [trackWith, ho, ht.2]; rfl

theorem trackWith_replicate_quiet (a : Arith) (c : Int) (n : Nat) (s : Sensor)
    (h : ∀ k, 0 < k → k ≤ n →
      (s.active = false → 1 / 2 ≤ (trackWith a (List.replicate k c) s).1.signal) ∧
      (s.active = true → (trackWith a (List.replicate k c) s).1.signal ≤ a.hi)) :
    (trackWith a (List.replicate n c) s).1.active = s.active ∧
      (trackWith a (List.replicate n c) s).2 = "" := by
  have hq := trackWith_quiet a (List.replicate n c) s (fun k hk hl => by
    rw [List.length_replicate] at hl
    rw [List.take_replicate, Nat.min_eq_left hl]
    exact h k hk hl)
  refine ⟨?_, hq.2⟩
  have := hq.1 n
  rwa [List.take_replicate, Nat.min_self] at this

/-- A run with the sample held at `c` in which the stored signal is below
0.5 for the first time in cycle `N` and never above `0.9` afterwards, on a
node that is not active: nothing is printed before cycle `N`, `<Q id>` is
printed in cycle `N`, and nothing after it. -/
theorem trackWith_trigger (a : Arith) (c : Int) (s : Sensor) (N : Nat) (hN : 0 < N)
    (ha : s.active = false)
    (hbefore : ∀ k, 0 < k → k < N → 1 / 2 ≤ (trackWith a (List.replicate k c) s).1.signal)
    (hat : (trackWith a (List.replicate N c) s).1.signal < 1 / 2)
    (hafter : ∀ k, N < k → (trackWith a (List.replicate k c) s).1.signal ≤ a.hi) :
    (∀ k, k < N → (trackWith a (List.replicate k c) s).1.active = false ∧
        (trackWith a (List.replicate k c) s).2 = "") ∧
      (checkOneWith a c (trackWith a (List.replicate (N - 1) c) s).1).2
        = "<Q" ++ toString s.data.snum ++ ">" ∧
      ∀ n, N ≤ n → (trackWith a (List.replicate n c) s).1.active = true ∧
        (trackWith a (List.replicate n c) s).2 = "<Q" ++ toString s.data.snum ++ ">" := by
  have part1 : ∀ k, k < N → (trackWith a (List.replicate k c) s).1.active = false ∧
      (trackWith a (List.replicate k c) s).2 = "" := by
    intro k hk
    have := trackWith_replicate_quiet a c k s (fun j hj hjk =>
      ⟨fun _ => hbefore j hj (by omega), fun h => by rw [ha] at h; exact absurd h (by simp)⟩)
    rwa [ha] at this
  obtain ⟨hpa, hpo⟩ := part1 (N - 1) (by omega)
  have hsplit := trackWith_replicate_add a c (N - 1) 1 s
  rw [Nat.sub_add_cancel hN, trackWith_replicate_one] at hsplit
  have hsig : (checkOneWith a c (trackWith a (List.replicate (N - 1) c) s).1).1.signal
      < 1 / 2 := by
    rw [hsplit] at hat; exact hat
  obtain ⟨hta, hto⟩ := checkOneWith_trigger a c _ hpa hsig
  rw [trackWith_data] at hto
  have hN1 : (trackWith a (List.replicate N c) s).1.active = true := by rw [hsplit]; exact hta
  have hN2 : (trackWith a (List.replicate N c) s).2 = "<Q" ++ toString s.data.snum ++ ">" := by
    rw [hsplit]; simp only [hpo, hto, String.empty_append]
  refine ⟨part1, hto, ?_⟩
  intro n hn
  obtain ⟨j, rfl⟩ := Nat.exists_eq_add_of_le hn
  have hq := trackWith_replicate_quiet a c j (trackWith a (List.replicate N c) s).1
    (fun i hi hij =>
      ⟨fun h => by rw [hN1] at h; exact absurd h (by simp), fun _ => by
        have := hafter (N + i) (by omega)
        rwa [trackWith_replicate_add] at this⟩)
  rw [trackWith_replicate_add]
  simp only [hq.1, hq.2, hN1, hN2, String.append_empty, and_self]

/-- The same for a node that is active, with the stored signal above `0.9`
for the first time in cycle `N` and never below 0.5 afterwards: `<q id>` is
printed in cycle `N` and nothing else. -/
theorem trackWith_release (a : Arith) (c : Int) (s : Sensor) (N : Nat) (hN : 0 < N)
    (ha : s.active = true)
    (hbefore : ∀ k, 0 < k → k < N → (trackWith a (List.replicate k c) s).1.signal ≤ a.hi)
    (hat : (trackWith a (List.replicate N c) s).1.signal > a.hi)
    (hafter : ∀ k, N < k → 1 / 2 ≤ (trackWith a (List.replicate k c) s).1.signal) :
    (∀ k, k < N → (trackWith a (List.replicate k c) s).1.active = true ∧
        (trackWith a (List.replicate k c) s).2 = "") ∧
      (checkOneWith a c (trackWith a (List.replicate (N - 1) c) s).1).2
        = "<q" ++ toString s.data.snum ++ ">" ∧
      ∀ n, N ≤ n → (trackWith a (List.replicate n c) s).1.active = false ∧
        (trackWith a (List.replicate n c) s).2 = "<q" ++ toString s.data.snum ++ ">" := by
  have part1 : ∀ k, k < N → (trackWith a (List.replicate k c) s).1.active = true ∧
      (trackWith a (List.replicate k c) s).2 = "" := by
    intro k hk
    have := trackWith_replicate_quiet a c k s (fun j hj hjk =>
      ⟨fun h => by rw [ha] at h; exact absurd h (by simp), fun _ => hbefore j hj (by omega)⟩)
    rwa [ha] at this
  obtain ⟨hpa, hpo⟩ := part1 (N - 1) (by omega)
  have hsplit := trackWith_replicate_add a c (N - 1) 1 s
  rw [Nat.sub_add_cancel hN, trackWith_replicate_one] at hsplit
  have hsig : (checkOneWith a c (trackWith a (List.replicate (N - 1) c) s).1).1.signal
      > a.hi := by
    rw [hsplit] at hat; exact hat
  obtain ⟨hta, hto⟩ := checkOneWith_release a c _ hpa hsig
  rw [trackWith_data] at hto
  have hN1 : (trackWith a (List.replicate N c) s).1.active = false := by rw [hsplit]; exact hta
  have hN2 : (trackWith a (List.replicate N c) s).2 = "<q" ++ toString s.data.snum ++ ">" := by
    rw [hsplit]; simp only [hpo, hto, String.empty_append]
  refine ⟨part1, hto, ?_⟩
  intro n hn
  obtain ⟨j, rfl⟩ := Nat.exists_eq_add_of_le hn
  have hq := trackWith_replicate_quiet a c j (trackWith a (List.replicate N c) s).1
    (fun i hi hij =>
      ⟨fun _ => by
        have := hafter (N + i) (by omega)
        rwa [trackWith_replicate_add] at this,
        fun h => by rw [hN1] at h; exact absurd h (by simp)⟩)
  rw [trackWith_replicate_add]
  simp only [hq.1, hq.2, hN1, hN2, String.append_empty, and_self]

/-- On a list of one node, what the cycles of `check` print is what
`trackWith` gives for the node. -/
theorem cyclesWith_singleton (a : Arith) (rds : List (Int → Int)) (s : Sensor) :
    cyclesWith a rds [s] =
      ([(trackWith a (rds.map fun rd => rd s.data.pin) s).1],
        (trackWith a (rds.map fun rd => rd s.data.pin) s).2) := by
  induction rds generalizing s with
  | nil => simp [cyclesWith, trackWith]
  | cons rd rds ih =>
    simp only [cyclesWith, checkWith, ih, List.map_cons, trackWith, checkOneWith_data,
      String.append_empty]

theorem cyclesWith_singleton_held (a : Arith) (c : Int) (n : Nat) (s : Sensor) :
    cyclesWith a (List.replicate n fun _ => c) [s] =
      ([(trackWith a (List.replicate n c) s).1], (trackWith a (List.replicate n c) s).2) := by
  rw [cyclesWith_singleton, List.map_replicate]

/-! ## Rounding -/

theorem roundNE_err (y : ℚ) : |(roundNE y : ℚ) - y| ≤ 1 / 2 := by
  have h1 := Int.floor_le y
  have h2 := Int.lt_floor_add_one y
  rw [abs_le]
  unfold roundNE
  split_ifs <;> push_cast <;> constructor <;> linarith

/-- Rounding to `p` bits moves a number by at most its `2^p`-th part. -/
theorem fl_err (p : Nat) (x : ℚ) (hx : 0 ≤ x) : |fl p x - x| ≤ x / 2 ^ p := by
  rcases eq_or_lt_of_le hx with h0 | hpos
  · rw [← h0]; simp [fl]
  · have hne : x ≠ 0 := ne_of_gt hpos
    have habs : |x| = x := abs_of_pos hpos
    have hlog : (2 : ℚ) ^ Int.log 2 x ≤ x := by
      have := Int.zpow_log_le_self (b := 2) (by norm_num) hpos
      simpa using this
    have hpe : (0 : ℚ) < 2 ^ (Int.log 2 x - ((p : Int) - 1)) := zpow_pos (by norm_num) _
    have h2e : (2 : ℚ) ^ (Int.log 2 x - ((p : Int) - 1)) * 2 ^ p = 2 ^ Int.log 2 x * 2 := by
      rw [← zpow_natCast, ← zpow_add₀ (two_ne_zero), ← zpow_add_one₀ (two_ne_zero)]
      congr 1
      ring
    have hp : (0 : ℚ) < 2 ^ p := pow_pos (by norm_num) p
    have herr := roundNE_err (x / (2 : ℚ) ^ (Int.log 2 x - ((p : Int) - 1)))
    have hfl : fl p x - x = ((roundNE (x / (2 : ℚ) ^ (Int.log 2 x - ((p : Int) - 1))) : ℚ)
        - x / (2 : ℚ) ^ (Int.log 2 x - ((p : Int) - 1)))
        * (2 : ℚ) ^ (Int.log 2 x - ((p : Int) - 1)) := by
      rw [fl, if_neg hne, habs]
      field_simp
    rw [hfl, abs_mul, abs_of_pos hpe, le_div_iff₀ hp]
    calc |((roundNE (x / (2 : ℚ) ^ (Int.log 2 x - ((p : Int) - 1))) : ℚ)
          - x / (2 : ℚ) ^ (Int.log 2 x - ((p : Int) - 1)))|
          * (2 : ℚ) ^ (Int.log 2 x - ((p : Int) - 1)) * 2 ^ p
        ≤ 1 / 2 * (2 : ℚ) ^ (Int.log 2 x - ((p : Int) - 1)) * 2 ^ p := by gcongr
      _ = 1 / 2 * ((2 : ℚ) ^ (Int.log 2 x - ((p : Int) - 1)) * 2 ^ p) := by ring
      _ = 2 ^ Int.log 2 x := by rw [h2e]; ring
      _ ≤ x := hlog

/-- With at least 24 bits, rounding moves a number that is not negative by at
most its ten-millionth part. -/
theorem fl_bounds (p : Nat) (hp : 24 ≤ p) (x : ℚ) (hx : 0 ≤ x) :
    x * (1 - 1 / 10 ^ 7) ≤ fl p x ∧ fl p x ≤ x * (1 + 1 / 10 ^ 7) := by
  have h := fl_err p x hx
  have h24 : (2 : ℚ) ^ 24 ≤ 2 ^ p := pow_le_pow_right₀ (by norm_num) hp
  have hpos : (0 : ℚ) < 2 ^ p := pow_pos (by norm_num) p
  have hle : x / 2 ^ p ≤ x / 10 ^ 7 := by
    apply div_le_div_of_nonneg_left hx (by norm_num)
    calc (10 : ℚ) ^ 7 ≤ 2 ^ 24 := by norm_num
      _ ≤ 2 ^ p := h24
  have h2 := abs_le.1 (h.trans hle)
  constructor
  · have : x * (1 - 1 / 10 ^ 7) = x - x / 10 ^ 7 := by ring
    rw [this]; linarith [h2.1]
  · have : x * (1 + 1 / 10 ^ 7) = x + x / 10 ^ 7 := by ring
    rw [this]; linarith [h2.2]

theorem fl_nonneg (p : Nat) (hp : 24 ≤ p) (x : ℚ) (hx : 0 ≤ x) : 0 ≤ fl p x :=
  le_trans (mul_nonneg hx (by norm_num)) (fl_bounds p hp x hx).1

theorem fl_zero (p : Nat) : fl p 0 = 0 := by simp [fl]

/-- The constants of the update as IEEE arithmetic of at least 24 bits has
them, for `SENSOR_DECAY` between 1/1000 and 1/2: the decay and `1.0 - decay`
are off by at most 3/10^7, and `0.9` is between 0.89 and 0.91. -/
theorem ieee_consts (p : Nat) (hp : 24 ≤ p) (d : ℚ) (hd0 : 1 / 1000 ≤ d) (hd1 : d ≤ 1 / 2) :
    (d - 1 / 10 ^ 7 ≤ fl p d ∧ fl p d ≤ d + 1 / 10 ^ 7) ∧
    (1 - d - 3 / 10 ^ 7 ≤ fl p (1 - fl p d) ∧ fl p (1 - fl p d) ≤ 1 - d + 3 / 10 ^ 7) ∧
    (89 / 100 ≤ fl p (9 / 10) ∧ fl p (9 / 10) ≤ 91 / 100) := by
  have hd := fl_bounds p hp d (by linarith)
  have h1 : d - 1 / 10 ^ 7 ≤ fl p d := by nlinarith [hd.1]
  have h2 : fl p d ≤ d + 1 / 10 ^ 7 := by nlinarith [hd.2]
  have hc := fl_bounds p hp (1 - fl p d) (by linarith)
  have hh := fl_bounds p hp (9 / 10) (by norm_num)
  refine ⟨⟨h1, h2⟩, ⟨?_, ?_⟩, le_trans (by norm_num) hh.1, le_trans hh.2 (by norm_num)⟩
  · nlinarith [hc.1]
  · nlinarith [hc.2]

/-- The update of IEEE arithmetic with the sample 0, for `SENSOR_DECAY`
between 1/1000 and 1/2: not negative and at most `(1 - decay/2)` times the
signal. -/
theorem ieee_upd_zero (p ps : Nat) (hp : 24 ≤ p) (hps : 24 ≤ ps) (d : ℚ)
    (hd0 : 1 / 1000 ≤ d) (hd1 : d ≤ 1 / 2) (s : ℚ) (hs : 0 ≤ s) :
    0 ≤ (ieee p ps d).upd s 0 ∧ (ieee p ps d).upd s 0 ≤ (1 - d / 2) * s := by
  obtain ⟨-, ⟨hc1, hc2⟩, -⟩ := ieee_consts p hp d hd0 hd1
  have hc0 : 0 ≤ fl p (1 - fl p d) := by linarith
  have hsc : 0 ≤ s * fl p (1 - fl p d) := mul_nonneg hs hc0
  have h1 := fl_bounds p hp _ hsc
  have h1n := fl_nonneg p hp _ hsc
  have h3 := fl_bounds p hp _ h1n
  have h3n := fl_nonneg p hp _ h1n
  have h4 := fl_bounds ps hps _ h3n
  have hupd : (ieee p ps d).upd s 0 = fl ps (fl p (fl p (s * fl p (1 - fl p d)))) := by
    simp only [ieee, Int.cast_zero, zero_mul, fl_zero, add_zero]
  rw [hupd]
  refine ⟨fl_nonneg ps hps _ h3n, ?_⟩
  have hK : (0 : ℚ) ≤ 1 + 1 / 10 ^ 7 := by norm_num
  have hsc2 : s * fl p (1 - fl p d) ≤ s * (1 - d + 3 / 10 ^ 7) :=
    mul_le_mul_of_nonneg_left hc2 hs
  calc fl ps (fl p (fl p (s * fl p (1 - fl p d))))
      ≤ fl p (fl p (s * fl p (1 - fl p d))) * (1 + 1 / 10 ^ 7) := h4.2
    _ ≤ fl p (s * fl p (1 - fl p d)) * (1 + 1 / 10 ^ 7) * (1 + 1 / 10 ^ 7) :=
        mul_le_mul_of_nonneg_right h3.2 hK
    _ ≤ s * fl p (1 - fl p d) * (1 + 1 / 10 ^ 7) * (1 + 1 / 10 ^ 7) * (1 + 1 / 10 ^ 7) :=
        mul_le_mul_of_nonneg_right (mul_le_mul_of_nonneg_right h1.2 hK) hK
    _ ≤ s * (1 - d + 3 / 10 ^ 7) * (1 + 1 / 10 ^ 7) * (1 + 1 / 10 ^ 7) * (1 + 1 / 10 ^ 7) :=
        mul_le_mul_of_nonneg_right (mul_le_mul_of_nonneg_right
          (mul_le_mul_of_nonneg_right hsc2 hK) hK) hK
    _ = s * ((1 - d + 3 / 10 ^ 7) * (1 + 1 / 10 ^ 7) ^ 3) := by ring
    _ ≤ s * (1 - d / 2) := by
        apply mul_le_mul_of_nonneg_left _ hs
        have h3 : (1 + 1 / 10 ^ 7 : ℚ) ^ 3 ≤ 1 + 4 / 10 ^ 7 := by norm_num
        have hpos : (0 : ℚ) ≤ 1 - d + 3 / 10 ^ 7 := by linarith
        calc (1 - d + 3 / 10 ^ 7) * (1 + 1 / 10 ^ 7) ^ 3
            ≤ (1 - d + 3 / 10 ^ 7) * (1 + 4 / 10 ^ 7) := mul_le_mul_of_nonneg_left h3 hpos
          _ ≤ 1 - d / 2 := by nlinarith
    _ = (1 - d / 2) * s := mul_comm _ _

/-- The update of IEEE arithmetic with the sample 1, for `SENSOR_DECAY`
between 1/1000 and 1/2: at least
`(s*(1 - decay - 3/10^7) + decay - 1/10^7)*(1 - 4/10^7)`. -/
theorem ieee_upd_one (p ps : Nat) (hp : 24 ≤ p) (hps : 24 ≤ ps) (d : ℚ)
    (hd0 : 1 / 1000 ≤ d) (hd1 : d ≤ 1 / 2) (s : ℚ) (hs : 0 ≤ s) :
    (s * (1 - d - 3 / 10 ^ 7) + (d - 1 / 10 ^ 7)) * (1 - 4 / 10 ^ 7)
      ≤ (ieee p ps d).upd s 1 := by
  obtain ⟨⟨hd1', hd2'⟩, ⟨hc1, hc2⟩, -⟩ := ieee_consts p hp d hd0 hd1
  have hc0 : 0 ≤ fl p (1 - fl p d) := by linarith
  have hsc : 0 ≤ s * fl p (1 - fl p d) := mul_nonneg hs hc0
  have h1 := fl_bounds p hp _ hsc
  have h1n := fl_nonneg p hp _ hsc
  have hdn : (0 : ℚ) ≤ fl p d := by linarith
  have h2 := fl_bounds p hp _ hdn
  have h2n := fl_nonneg p hp _ hdn
  have hsum : 0 ≤ fl p (s * fl p (1 - fl p d)) + fl p (fl p d) := add_nonneg h1n h2n
  have h3 := fl_bounds p hp _ hsum
  have h3n := fl_nonneg p hp _ hsum
  have h4 := fl_bounds ps hps _ h3n
  have hupd : (ieee p ps d).upd s 1
      = fl ps (fl p (fl p (s * fl p (1 - fl p d)) + fl p (fl p d))) := by
    simp only [ieee, Int.cast_one, one_mul]
  rw [hupd]
  have hk : (0 : ℚ) ≤ 1 - 1 / 10 ^ 7 := by norm_num
  have hsc2 : s * (1 - d - 3 / 10 ^ 7) ≤ s * fl p (1 - fl p d) :=
    mul_le_mul_of_nonneg_left hc1 hs
  have ht1 : s * (1 - d - 3 / 10 ^ 7) * (1 - 1 / 10 ^ 7) ≤ fl p (s * fl p (1 - fl p d)) :=
    le_trans (mul_le_mul_of_nonneg_right hsc2 hk) h1.1
  have ht2 : (d - 1 / 10 ^ 7) * (1 - 1 / 10 ^ 7) ≤ fl p (fl p d) :=
    le_trans (mul_le_mul_of_nonneg_right hd1' hk) h2.1
  have hs3 : (s * (1 - d - 3 / 10 ^ 7) + (d - 1 / 10 ^ 7)) * (1 - 1 / 10 ^ 7)
      * (1 - 1 / 10 ^ 7) ≤ fl p (fl p (s * fl p (1 - fl p d)) + fl p (fl p d)) := by
    refine le_trans (mul_le_mul_of_nonneg_right ?_ hk) h3.1
    have : (s * (1 - d - 3 / 10 ^ 7) + (d - 1 / 10 ^ 7)) * (1 - 1 / 10 ^ 7)
        = s * (1 - d - 3 / 10 ^ 7) * (1 - 1 / 10 ^ 7)
          + (d - 1 / 10 ^ 7) * (1 - 1 / 10 ^ 7) := by ring
    rw [this]
    exact add_le_add ht1 ht2
  have hs4 : (s * (1 - d - 3 / 10 ^ 7) + (d - 1 / 10 ^ 7)) * (1 - 1 / 10 ^ 7)
      * (1 - 1 / 10 ^ 7) * (1 - 1 / 10 ^ 7)
      ≤ fl ps (fl p (fl p (s * fl p (1 - fl p d)) + fl p (fl p d))) :=
    le_trans (mul_le_mul_of_nonneg_right hs3 hk) h4.1
  refine le_trans ?_ hs4
  have hb : (0 : ℚ) ≤ s * (1 - d - 3 / 10 ^ 7) + (d - 1 / 10 ^ 7) :=
    add_nonneg (mul_nonneg hs (by linarith)) (by linarith)
  have : (s * (1 - d - 3 / 10 ^ 7) + (d - 1 / 10 ^ 7)) * (1 - 1 / 10 ^ 7)
      * (1 - 1 / 10 ^ 7) * (1 - 1 / 10 ^ 7)
      = (s * (1 - d - 3 / 10 ^ 7) + (d - 1 / 10 ^ 7)) * ((1 - 1 / 10 ^ 7) ^ 3) := by ring
  rw [this]
  exact mul_le_mul_of_nonneg_left (by norm_num) hb

/-- Exact arithmetic decays under the sample 0, for every decay in (0,1). -/
theorem decaysAt0_exact (d : ℚ) (hd0 : 0 < d) (hd1 : d < 1) :
    DecaysAt0 (exactArith d) (1 - d) := by
  refine ⟨by linarith, by linarith, by norm_num [exactArith], ?_, ?_, ?_⟩
  · intro s hs
    simp only [exactArith, Int.cast_zero, zero_mul, add_zero]
    exact mul_nonneg hs (by linarith)
  · intro s _ _
    simp only [exactArith, Int.cast_zero, zero_mul, add_zero]
    rw [mul_comm]
  · intro s hs hh
    simp only [exactArith, Int.cast_zero, zero_mul, add_zero] at hh ⊢
    have : s * (1 - d) ≤ s * 1 := mul_le_mul_of_nonneg_left (by linarith) hs
    linarith

/-- Exact arithmetic rises under the sample 1, for every decay in (0,1). -/
theorem risesAt1_exact (d : ℚ) (hd0 : 0 < d) (hd1 : d < 1) :
    RisesAt1 (exactArith d) (1 - d) := by
  refine ⟨by linarith, by linarith, by norm_num [exactArith], by norm_num [exactArith],
    ?_, ?_, ?_⟩
  · intro s hs
    simp only [exactArith, Int.cast_one, one_mul]
    have := mul_nonneg hs (by linarith : (0 : ℚ) ≤ 1 - d)
    linarith
  · intro s _ _
    simp only [exactArith, Int.cast_one, one_mul]
    have : 1 - (s * (1 - d) + d) = (1 - d) * (1 - s) := by ring
    rw [this]
  · intro s hs
    simp only [exactArith, Int.cast_one, one_mul]
    have : (1 / 2 : ℚ) * (1 - d) ≤ s * (1 - d) :=
      mul_le_mul_of_nonneg_right hs (by linarith)
    linarith

/-- IEEE arithmetic of at least 24 bits decays under the sample 0, for
`SENSOR_DECAY` between 1/1000 and 1/2. -/
theorem decaysAt0_ieee (p ps : Nat) (hp : 24 ≤ p) (hps : 24 ≤ ps) (d : ℚ)
    (hd0 : 1 / 1000 ≤ d) (hd1 : d ≤ 1 / 2) :
    DecaysAt0 (ieee p ps d) (1 - d / 2) := by
  obtain ⟨-, -, hh1, hh2⟩ := ieee_consts p hp d hd0 hd1
  have hhi : (ieee p ps d).hi = fl p (9 / 10) := rfl
  refine ⟨by linarith, by linarith, by rw [hhi]; linarith, ?_, ?_, ?_⟩
  · exact fun s hs => (ieee_upd_zero p ps hp hps d hd0 hd1 s hs).1
  · exact fun s hs _ => (ieee_upd_zero p ps hp hps d hd0 hd1 s (by linarith)).2
  · intro s hs hh
    have := (ieee_upd_zero p ps hp hps d hd0 hd1 s hs).2
    nlinarith

/-- IEEE arithmetic of at least 24 bits rises under the sample 1, for
`SENSOR_DECAY` between 1/1000 and 1/2. -/
theorem risesAt1_ieee (p ps : Nat) (hp : 24 ≤ p) (hps : 24 ≤ ps) (d : ℚ)
    (hd0 : 1 / 1000 ≤ d) (hd1 : d ≤ 1 / 2) :
    RisesAt1 (ieee p ps d) (1 - d / 2) := by
  obtain ⟨-, -, hh1, hh2⟩ := ieee_consts p hp d hd0 hd1
  have hhi : (ieee p ps d).hi = fl p (9 / 10) := rfl
  refine ⟨by linarith, by linarith, by rw [hhi]; linarith, by rw [hhi]; linarith, ?_, ?_, ?_⟩
  · intro s hs
    have := ieee_upd_one p ps hp hps d hd0 hd1 s hs
    have hb : (0 : ℚ) ≤ (s * (1 - d - 3 / 10 ^ 7) + (d - 1 / 10 ^ 7)) * (1 - 4 / 10 ^ 7) :=
      mul_nonneg (add_nonneg (mul_nonneg hs (by linarith)) (by linarith)) (by norm_num)
    linarith
  · intro s hs hh
    rw [hhi] at hh
    have := ieee_upd_one p ps hp hps d hd0 hd1 s hs
    have hs1 : s ≤ 91 / 100 := le_trans hh hh2
    nlinarith [mul_nonneg hs (by linarith : (0 : ℚ) ≤ d - 1 / 1000),
      mul_nonneg (by linarith : (0 : ℚ) ≤ 91 / 100 - s) (by linarith : (0 : ℚ) ≤ d - 1 / 1000),
      mul_nonneg hs (by linarith : (0 : ℚ) ≤ 1 / 2 - d)]
  · intro s hs
    have := ieee_upd_one p ps hp hps d hd0 hd1 s (by linarith)
    nlinarith [mul_nonneg (by linarith : (0 : ℚ) ≤ s - 1 / 2) (by linarith : (0 : ℚ) ≤ 1 / 2 - d),
      mul_nonneg (by linarith : (0 : ℚ) ≤ s - 1 / 2) (by linarith : (0 : ℚ) ≤ d - 1 / 1000)]

/-! ## Trigger and release in an arithmetic that decays and rises -/

/-- Nothing below 0: the sample held at 0, from a signal that is not
negative. -/
theorem trackWith_zero_nonneg (a : Arith) (q : ℚ) (h : DecaysAt0 a q) (s : Sensor)
    (hs : 0 ≤ s.signal) (n : Nat) : 0 ≤ (trackWith a (List.replicate n 0) s).1.signal := by
  induction n with
  | zero => simpa [trackWith] using hs
  | succ n ih => rw [trackWith_succ_signal]; exact h.2.2.2.1 _ ih

/-- The sample held at 0, from `signal = 1`: as long as the signal has not been
below 0.5 it is at most `q^n`. -/
theorem trackWith_zero_le_pow (a : Arith) (q : ℚ) (h : DecaysAt0 a q) (s : Sensor)
    (hs : s.signal = 1) (n : Nat)
    (hk : ∀ k, k < n → 1 / 2 ≤ (trackWith a (List.replicate k 0) s).1.signal) :
    (trackWith a (List.replicate n 0) s).1.signal ≤ q ^ n := by
  induction n with
  | zero => simp [trackWith, hs]
  | succ n ih =>
    have ihn := ih (fun k hk1 => hk k (Nat.lt_succ_of_lt hk1))
    have hq1 : q ^ n ≤ 1 := pow_le_one₀ h.1 h.2.1.le
    rw [trackWith_succ_signal, pow_succ, mul_comm]
    exact le_trans (h.2.2.2.2.1 _ (hk n (Nat.lt_succ_self n)) (le_trans ihn hq1))
      (mul_le_mul_of_nonneg_left ihn h.1)

/-- A node with `signal = 1` that is not active, the sample held at 0, in an
arithmetic that decays: there is a first cycle `N` whose stored signal is
below 0.5; nothing is printed before it, `<Q id>` is printed in it, and
nothing after it. -/
theorem triggerWith_from_idle (a : Arith) (q : ℚ) (h : DecaysAt0 a q) (s : Sensor)
    (hs : s.signal = 1) (ha : s.active = false) :
    ∃ N, 0 < N ∧
      (∀ k, k < N → 1 / 2 ≤ (trackWith a (List.replicate k 0) s).1.signal ∧
        (trackWith a (List.replicate k 0) s).1.active = false ∧
        (trackWith a (List.replicate k 0) s).2 = "") ∧
      (trackWith a (List.replicate N 0) s).1.signal < 1 / 2 ∧
      (checkOneWith a 0 (trackWith a (List.replicate (N - 1) 0) s).1).2
        = "<Q" ++ toString s.data.snum ++ ">" ∧
      ∀ n, N ≤ n → (trackWith a (List.replicate n 0) s).1.active = true ∧
        (trackWith a (List.replicate n 0) s).2 = "<Q" ++ toString s.data.snum ++ ">" := by
  have hex : ∃ n, (trackWith a (List.replicate n 0) s).1.signal < 1 / 2 := by
    by_contra hne
    push_neg at hne
    obtain ⟨n, hn⟩ : ∃ n : ℕ, q ^ n < 1 / 2 := exists_pow_lt_of_lt_one (by norm_num) h.2.1
    have := trackWith_zero_le_pow a q h s hs n (fun k _ => hne k)
    linarith [hne n]
  have hNlt := Nat.find_spec hex
  have hmin : ∀ k, k < Nat.find hex →
      1 / 2 ≤ (trackWith a (List.replicate k 0) s).1.signal :=
    fun k hk => not_lt.1 (Nat.find_min hex hk)
  have hN : 0 < Nat.find hex := by
    rcases Nat.eq_zero_or_pos (Nat.find hex) with h0 | h0
    · rw [h0] at hNlt
      simp only [List.replicate_zero, trackWith, hs] at hNlt
      norm_num at hNlt
    · exact h0
  have hnn := trackWith_zero_nonneg a q h s (by rw [hs]; norm_num)
  have hafter : ∀ k, Nat.find hex ≤ k →
      (trackWith a (List.replicate k 0) s).1.signal ≤ a.hi := by
    intro k hk
    induction k, hk using Nat.le_induction with
    | base => exact le_trans hNlt.le h.2.2.1
    | succ k _ ih => rw [trackWith_succ_signal]; exact h.2.2.2.2.2 _ (hnn k) ih
  obtain ⟨h1, h2, h3⟩ := trackWith_trigger a 0 s (Nat.find hex) hN ha
    (fun k _ hk => hmin k hk) hNlt (fun k hk => hafter k hk.le)
  exact ⟨Nat.find hex, hN, fun k hk => ⟨hmin k hk, h1 k hk⟩, hNlt, h2, h3⟩

/-- Nothing below 0: the sample held at 1, from a signal that is not
negative. -/
theorem trackWith_one_nonneg (a : Arith) (q : ℚ) (h : RisesAt1 a q) (s : Sensor)
    (hs : 0 ≤ s.signal) (n : Nat) : 0 ≤ (trackWith a (List.replicate n 1) s).1.signal := by
  induction n with
  | zero => simpa [trackWith] using hs
  | succ n ih => rw [trackWith_succ_signal]; exact h.2.2.2.2.1 _ ih

/-- The sample held at 1, from a signal that is not negative: as long as the
signal has not been above `0.9` from the first cycle on, its distance to 1
after `n + 1` cycles is at most `q^n`. -/
theorem trackWith_one_le_pow (a : Arith) (q : ℚ) (h : RisesAt1 a q) (s : Sensor)
    (hs : 0 ≤ s.signal) (n : Nat)
    (hk : ∀ k, k < n → (trackWith a (List.replicate (k + 1) 1) s).1.signal ≤ a.hi) :
    1 - (trackWith a (List.replicate (n + 1) 1) s).1.signal ≤ q ^ n := by
  induction n with
  | zero =>
    have := trackWith_one_nonneg a q h s hs 1
    rw [pow_zero]; linarith
  | succ n ih =>
    have ihn := ih (fun k hk1 => hk k (Nat.lt_succ_of_lt hk1))
    rw [trackWith_succ_signal, pow_succ, mul_comm]
    exact le_trans (h.2.2.2.2.2.1 _ (trackWith_one_nonneg a q h s hs (n + 1))
        (hk n (Nat.lt_succ_self n)))
      (mul_le_mul_of_nonneg_left ihn h.1)

/-- An active node whose signal is not negative, the sample held at 1, in an
arithmetic that rises: there is a first cycle `N` whose stored signal is
above `0.9`; nothing is printed before it, `<q id>` is printed in it, and
nothing after it. -/
theorem releaseWith_from_active (a : Arith) (q : ℚ) (h : RisesAt1 a q) (s : Sensor)
    (hs : 0 ≤ s.signal) (ha : s.active = true) :
    ∃ N, 0 < N ∧
      (∀ k, k < N → (trackWith a (List.replicate k 1) s).1.active = true ∧
        (trackWith a (List.replicate k 1) s).2 = "") ∧
      (trackWith a (List.replicate N 1) s).1.signal > a.hi ∧
      (checkOneWith a 1 (trackWith a (List.replicate (N - 1) 1) s).1).2
        = "<q" ++ toString s.data.snum ++ ">" ∧
      ∀ n, N ≤ n → (trackWith a (List.replicate n 1) s).1.active = false ∧
        (trackWith a (List.replicate n 1) s).2 = "<q" ++ toString s.data.snum ++ ">" := by
  have hex : ∃ n, (trackWith a (List.replicate (n + 1) 1) s).1.signal > a.hi := by
    by_contra hne
    push_neg at hne
    obtain ⟨n, hn⟩ : ∃ n : ℕ, q ^ n < 1 - a.hi :=
      exists_pow_lt_of_lt_one (by linarith [h.2.2.2.1]) h.2.1
    have := trackWith_one_le_pow a q h s hs n (fun k _ => hne k)
    linarith [hne n]
  have hNlt := Nat.find_spec hex
  have hmin : ∀ k, 0 < k → k < Nat.find hex + 1 →
      (trackWith a (List.replicate k 1) s).1.signal ≤ a.hi := by
    intro k hk0 hk
    obtain ⟨j, rfl⟩ : ∃ j, k = j + 1 := ⟨k - 1, by omega⟩
    exact not_lt.1 (Nat.find_min hex (by omega))
  have hafter : ∀ k, Nat.find hex + 1 ≤ k →
      1 / 2 ≤ (trackWith a (List.replicate k 1) s).1.signal := by
    intro k hk
    induction k, hk using Nat.le_induction with
    | base => exact le_trans h.2.2.1 hNlt.le
    | succ k _ ih => rw [trackWith_succ_signal]; exact h.2.2.2.2.2.2 _ ih
  obtain ⟨h1, h2, h3⟩ := trackWith_release a 1 s (Nat.find hex + 1) (Nat.succ_pos _) ha
    hmin hNlt (fun k hk => hafter k hk.le)
  exact ⟨Nat.find hex + 1, Nat.succ_pos _, h1, hNlt, h2, h3⟩

/-- A step that leaves the node as it is and prints nothing does so however
many are run. -/
theorem trackWith_fixed (a : Arith) (c : Int) (s : Sensor)
    (h : checkOneWith a c s = (s, "")) (n : Nat) :
    trackWith a (List.replicate n c) s = (s, "") := by
  induction n with
  | zero => rfl
  | succ n ih =>
    simp only [List.replicate_succ, trackWith]
    rw [h]
    simp only [ih]
    rfl

theorem roundNE_intCast (n : Int) : roundNE (n : ℚ) = n := by
  simp [roundNE]

/-- A power of two is a floating-point number. -/
theorem fl_two_zpow (p : Nat) (hp : 0 < p) (e : Int) : fl p ((2 : ℚ) ^ e) = (2 : ℚ) ^ e := by
  have hpos : (0 : ℚ) < 2 ^ e := zpow_pos (by norm_num) e
  have hlog : Int.log 2 |(2 : ℚ) ^ e| = e := by
    rw [abs_of_pos hpos]
    have := Int.log_zpow (R := ℚ) (b := 2) (by norm_num) e
    simpa using this
  have hq : (2 : ℚ) ^ e / 2 ^ (e - ((p : Int) - 1)) = ((2 ^ (p - 1) : Int) : ℚ) := by
    rw [← zpow_sub₀ (two_ne_zero)]
    have : e - (e - ((p : Int) - 1)) = ((p - 1 : Nat) : Int) := by omega
    rw [this, zpow_natCast]
    push_cast
    rfl
  rw [fl, if_neg (ne_of_gt hpos), hlog, hq, roundNE_intCast]
  push_cast
  rw [← zpow_natCast, ← zpow_add₀ (two_ne_zero)]
  congr 1
  omega

/-- The decay `2^-60` in IEEE arithmetic of 24 or 53 bits: `1.0 - 2^-60` is
`1.0`, and the update with the sample 0 leaves the signal 1 at 1. -/
theorem ieee_tiny_zero (p ps : Nat) (hp : p = 24 ∨ p = 53) (hps : ps = 24 ∨ ps = 53) :
    (ieee p ps (1 / 2 ^ 60)).upd 1 0 = 1 := by
  have ht : (1 / 2 ^ 60 : ℚ) = (2 : ℚ) ^ (-60 : Int) := by norm_num
  have h1 : fl p (1 / 2 ^ 60) = 1 / 2 ^ 60 := by
    rw [ht]; exact fl_two_zpow p (by omega) _
  have h2 : fl p (1 - 1 / 2 ^ 60) = 1 := by
    rcases hp with rfl | rfl <;> decide!
  have h3 : fl p 1 = 1 := by
    rcases hp with rfl | rfl <;> decide!
  have h4 : fl ps 1 = 1 := by
    rcases hps with rfl | rfl <;> decide!
  simp only [ieee, h1, h2, h3, h4, one_mul, Int.cast_zero, zero_mul, fl_zero, add_zero]

/-- The decay `2^-60` in IEEE arithmetic of 24 or 53 bits: the update with the
sample 1 leaves the signal 1/4 at 1/4. -/
theorem ieee_tiny_one (p ps : Nat) (hp : p = 24 ∨ p = 53) (hps : ps = 24 ∨ ps = 53) :
    (ieee p ps (1 / 2 ^ 60)).upd (1 / 4) 1 = 1 / 4 := by
  have ht : (1 / 2 ^ 60 : ℚ) = (2 : ℚ) ^ (-60 : Int) := by norm_num
  have h1 : fl p (1 / 2 ^ 60) = 1 / 2 ^ 60 := by
    rw [ht]; exact fl_two_zpow p (by omega) _
  have h2 : fl p (1 - 1 / 2 ^ 60) = 1 := by
    rcases hp with rfl | rfl <;> decide!
  have h3 : fl p (1 / 4) = 1 / 4 := by
    rcases hp with rfl | rfl <;> decide!
  have h4 : fl ps (1 / 4) = 1 / 4 := by
    rcases hps with rfl | rfl <;> decide!
  have h5 : fl p (1 / 4 + 1 / 2 ^ 60) = 1 / 4 := by
    rcases hp with rfl | rfl <;> decide!
  simp only [ieee, h1, h2, h3, h4, h5, mul_one, Int.cast_one, one_mul]

/-- The value of the constant `0.9` in IEEE arithmetic of 24 or 53 bits is at
least 1/4. -/
theorem ieee_hi_ge (p ps : Nat) (hp : p = 24 ∨ p = 53) (decay : ℚ) :
    1 / 4 ≤ (ieee p ps decay).hi := by
  have : (ieee p ps decay).hi = fl p (9 / 10) := rfl
  rw [this]
  rcases hp with rfl | rfl <;> decide!

/-- A node with `signal = 1` that is not active is left as it is by a cycle
whose update takes 1 to 1. -/
theorem checkOneWith_stall_idle (a : Arith) (data : SensorData) (h : a.upd 1 0 = 1) :
    checkOneWith a 0 ⟨data, 1, false⟩ = (⟨data, 1, false⟩, "") := by
  have c1 : ¬((!false && decide ((1 : ℚ) < 1 / 2)) = true) := by norm_num
  have c2 : ¬((false && decide ((1 : ℚ) > a.hi)) = true) := by simp
  simp only [checkOneWith, h]
  rw [if_neg c1, if_neg c2]

/-- An active node with `signal = 1/4` is left as it is by a cycle whose
update takes 1/4 to 1/4. -/
theorem checkOneWith_stall_active (a : Arith) (data : SensorData)
    (h : a.upd (1 / 4) 1 = 1 / 4) (hhi : 1 / 4 ≤ a.hi) :
    checkOneWith a 1 ⟨data, 1 / 4, true⟩ = (⟨data, 1 / 4, true⟩, "") := by
  have c1 : ¬((!true && decide ((1 / 4 : ℚ) < 1 / 2)) = true) := by simp
  have c2 : ¬((true && decide ((1 / 4 : ℚ) > a.hi)) = true) := by
    simp only [Bool.true_and, decide_eq_true_eq, gt_iff_lt, not_lt]
    exact hhi
  simp only [checkOneWith, h]
  rw [if_neg c1, if_neg c2]

/-- C11, as claimed for every smoothing constant in (0,1), fails in the
arithmetic of the machine. With the decay `2^-60`, in IEEE arithmetic of 24
bits, of 53 bits, and of 53 bits with a `signal` of 24 bits, `1.0 - 2^-60` is
`1.0`: the freshly created sensor 7 keeps `signal = 1` under the sample 0,
and however many cycles of `check` are run it stays inactive and nothing is
printed. -/
theorem C11_trigger_once_counterexample :
    (0 : ℚ) < 1 / 2 ^ 60 ∧ (1 / 2 ^ 60 : ℚ) < 1 ∧
    (create 7 2 1 1 true []).reg = [⟨⟨7, 2, 1⟩, 1, false⟩] ∧
    (∀ n, cyclesWith (ieee 24 24 (1 / 2 ^ 60)) (List.replicate n fun _ => 0)
      [⟨⟨7, 2, 1⟩, 1, false⟩] = ([⟨⟨7, 2, 1⟩, 1, false⟩], "")) ∧
    (∀ n, cyclesWith (ieee 53 24 (1 / 2 ^ 60)) (List.replicate n fun _ => 0)
      [⟨⟨7, 2, 1⟩, 1, false⟩] = ([⟨⟨7, 2, 1⟩, 1, false⟩], "")) ∧
    (∀ n, cyclesWith (ieee 53 53 (1 / 2 ^ 60)) (List.replicate n fun _ => 0)
      [⟨⟨7, 2, 1⟩, 1, false⟩] = ([⟨⟨7, 2, 1⟩, 1, false⟩], "")) := by
  have key : ∀ p ps, (p = 24 ∨ p = 53) → (ps = 24 ∨ ps = 53) →
      ∀ n, cyclesWith (ieee p ps (1 / 2 ^ 60)) (List.replicate n fun _ => 0)
        [⟨⟨7, 2, 1⟩, 1, false⟩] = ([⟨⟨7, 2, 1⟩, 1, false⟩], "") := by
    intro p ps hp hps n
    rw [cyclesWith_singleton_held,
      trackWith_fixed _ _ _ (checkOneWith_stall_idle _ _ (ieee_tiny_zero p ps hp hps)) n]
  exact ⟨by norm_num, by norm_num, rfl, key 24 24 (Or.inl rfl) (Or.inl rfl),
    key 53 24 (Or.inr rfl) (Or.inl rfl), key 53 53 (Or.inr rfl) (Or.inr rfl)⟩

/-- C11: in every arithmetic of the update that decays under the sample 0
(`DecaysAt0`) and for every id, the node that `create` makes on the empty
list (`signal = 1`, not active), checked in cycle after cycle with its sample
held at 0: there is a cycle `N` in which `<Q id>` is printed; it is the first
cycle whose stored signal is below 0.5 (before it the signal is at least 0.5,
the node is not active and nothing is printed); from cycle `N` on the node is
active, and however many cycles are run, all that is printed for the node is
that one `<Q id>`, with no `<q id>`. The cycles of `check` on the list of
this one node print what is said here of the node. Exact arithmetic decays
for every smoothing constant in (0,1); IEEE arithmetic of at least 24 bits
decays for every smoothing constant between 1/1000 and 1/2. -/
theorem C11_trigger_once :
    (∀ (a : Arith) (q : ℚ), DecaysAt0 a q → ∀ id pin pullUp v : Int,
      ∃ s, (create id pin pullUp v true []).reg = [s] ∧ s.data.snum = id ∧
        s.signal = 1 ∧ s.active = false ∧
        (∀ n, cyclesWith a (List.replicate n fun _ => 0) [s] =
          ([(trackWith a (List.replicate n 0) s).1],
            (trackWith a (List.replicate n 0) s).2)) ∧
        ∃ N, 0 < N ∧
          (∀ k, k < N → 1 / 2 ≤ (trackWith a (List.replicate k 0) s).1.signal ∧
            (trackWith a (List.replicate k 0) s).1.active = false ∧
            (trackWith a (List.replicate k 0) s).2 = "") ∧
          (trackWith a (List.replicate N 0) s).1.signal < 1 / 2 ∧
          (checkOneWith a 0 (trackWith a (List.replicate (N - 1) 0) s).1).2
            = "<Q" ++ toString id ++ ">" ∧
          ∀ n, N ≤ n → (trackWith a (List.replicate n 0) s).1.active = true ∧
            (trackWith a (List.replicate n 0) s).2 = "<Q" ++ toString id ++ ">") ∧
    (∀ d : ℚ, 0 < d → d < 1 → DecaysAt0 (exactArith d) (1 - d)) ∧
    (∀ p ps : Nat, 24 ≤ p → 24 ≤ ps → ∀ d : ℚ, 1 / 1000 ≤ d → d ≤ 1 / 2 →
      DecaysAt0 (ieee p ps d) (1 - d / 2)) :=
  ⟨fun a q h id pin pullUp _ =>
    ⟨⟨⟨id, pin, if pullUp = 0 then LOW else HIGH⟩, 1, false⟩, rfl, rfl, rfl, rfl,
      fun n => cyclesWith_singleton_held a 0 n _,
      triggerWith_from_idle a q h ⟨⟨id, pin, if pullUp = 0 then LOW else HIGH⟩, 1, false⟩
        rfl rfl⟩,
    decaysAt0_exact, decaysAt0_ieee⟩

/-- C11 in IEEE arithmetic of 24 bits with the decay `0.03`, sensor 7 on pin
2: `<Q7>`, once; the cycle is the 23rd. -/
theorem C11_trigger_once_witness :
    (∃ s, (create 7 2 1 1 true []).reg = [s] ∧ s.data.snum = 7 ∧
      s.signal = 1 ∧ s.active = false ∧
      (∀ n, cyclesWith (ieee 24 24 (3 / 100)) (List.replicate n fun _ => 0) [s] =
        ([(trackWith (ieee 24 24 (3 / 100)) (List.replicate n 0) s).1],
          (trackWith (ieee 24 24 (3 / 100)) (List.replicate n 0) s).2)) ∧
      ∃ N, 0 < N ∧
        (∀ k, k < N →
          1 / 2 ≤ (trackWith (ieee 24 24 (3 / 100)) (List.replicate k 0) s).1.signal ∧
          (trackWith (ieee 24 24 (3 / 100)) (List.replicate k 0) s).1.active = false ∧
          (trackWith (ieee 24 24 (3 / 100)) (List.replicate k 0) s).2 = "") ∧
        (trackWith (ieee 24 24 (3 / 100)) (List.replicate N 0) s).1.signal < 1 / 2 ∧
        (checkOneWith (ieee 24 24 (3 / 100)) 0
          (trackWith (ieee 24 24 (3 / 100)) (List.replicate (N - 1) 0) s).1).2 = "<Q7>" ∧
        ∀ n, N ≤ n →
          (trackWith (ieee 24 24 (3 / 100)) (List.replicate n 0) s).1.active = true ∧
          (trackWith (ieee 24 24 (3 / 100)) (List.replicate n 0) s).2 = "<Q7>") ∧
    (trackWith (ieee 24 24 (3 / 100)) (List.replicate 22 0) ⟨⟨7, 2, 1⟩, 1, false⟩).2 = "" ∧
    (trackWith (ieee 24 24 (3 / 100)) (List.replicate 23 0) ⟨⟨7, 2, 1⟩, 1, false⟩).2
      = "<Q7>" :=
  ⟨C11_trigger_once.1 (ieee 24 24 (3 / 100)) (1 - 3 / 100 / 2)
      (C11_trigger_once.2.2 24 24 (le_refl 24) (le_refl 24) (3 / 100) (by norm_num)
        (by norm_num)) 7 2 1 1,
    by decide!, by decide!⟩

/-- C12, as claimed for the signal the code stores, fails in the arithmetic of
the machine. With the decay `0.03` and a signal of 1/4, after one cycle with
the sample 1 the stored signal is 9143583/2^25 in IEEE arithmetic of 24 bits,
not `1 + (1/4 - 1)*(1 - 0.03)^1`, which is 109/400; nor is it in IEEE
arithmetic of 53 bits. With the decay `0.03` in IEEE
arithmetic of 24 bits and the sample held at 1, a signal of `1 - 2^-20` stays
where it is for ever: it does not come any nearer to 1. With the decay
`2^-60` and the sample held at 1, an active sensor 7 with signal 1/4 keeps
its signal and stays active for ever, and nothing is printed. -/
theorem C12_convergence_counterexample :
    ((trackWith (ieee 24 24 (3 / 100)) (List.replicate 1 1)
          ⟨⟨7, 2, 1⟩, 1 / 4, true⟩).1.signal = 9143583 / 2 ^ 25 ∧
      (trackWith (ieee 24 24 (3 / 100)) (List.replicate 1 1)
          ⟨⟨7, 2, 1⟩, 1 / 4, true⟩).1.signal
        ≠ ((1 : Int) : ℚ) + (1 / 4 - ((1 : Int) : ℚ)) * (1 - 3 / 100) ^ 1 ∧
      (trackWith (ieee 53 53 (3 / 100)) (List.replicate 1 1)
          ⟨⟨7, 2, 1⟩, 1 / 4, true⟩).1.signal
        ≠ ((1 : Int) : ℚ) + (1 / 4 - ((1 : Int) : ℚ)) * (1 - 3 / 100) ^ 1) ∧
    (∀ n, |(trackWith (ieee 24 24 (3 / 100)) (List.replicate n 1)
        ⟨⟨7, 2, 1⟩, 1048575 / 2 ^ 20, false⟩).1.signal - ((1 : Int) : ℚ)| = 1 / 2 ^ 20) ∧
    ((0 : ℚ) < 1 / 2 ^ 60 ∧ (1 / 2 ^ 60 : ℚ) < 1 ∧
      (∀ n, trackWith (ieee 24 24 (1 / 2 ^ 60)) (List.replicate n 1)
        ⟨⟨7, 2, 1⟩, 1 / 4, true⟩ = (⟨⟨7, 2, 1⟩, 1 / 4, true⟩, "")) ∧
      (∀ n, trackWith (ieee 53 24 (1 / 2 ^ 60)) (List.replicate n 1)
        ⟨⟨7, 2, 1⟩, 1 / 4, true⟩ = (⟨⟨7, 2, 1⟩, 1 / 4, true⟩, "")) ∧
      (∀ n, trackWith (ieee 53 53 (1 / 2 ^ 60)) (List.replicate n 1)
        ⟨⟨7, 2, 1⟩, 1 / 4, true⟩ = (⟨⟨7, 2, 1⟩, 1 / 4, true⟩, ""))) := by
  have key : ∀ p ps, (p = 24 ∨ p = 53) → (ps = 24 ∨ ps = 53) →
      ∀ n, trackWith (ieee p ps (1 / 2 ^ 60)) (List.replicate n 1)
        ⟨⟨7, 2, 1⟩, 1 / 4, true⟩ = (⟨⟨7, 2, 1⟩, 1 / 4, true⟩, "") :=
    fun p ps hp hps n => trackWith_fixed _ _ _
      (checkOneWith_stall_active _ _ (ieee_tiny_one p ps hp hps) (ieee_hi_ge p ps hp _)) n
  refine ⟨⟨by decide!, by decide!, by decide!⟩, fun n => ?_, by norm_num, by norm_num,
    key 24 24 (Or.inl rfl) (Or.inl rfl), key 53 24 (Or.inr rfl) (Or.inl rfl),
    key 53 53 (Or.inr rfl) (Or.inr rfl)⟩
  rw [trackWith_fixed (ieee 24 24 (3 / 100)) 1 ⟨⟨7, 2, 1⟩, 1048575 / 2 ^ 20, false⟩
    (by decide!) n]
  norm_num [abs_of_neg]

/-- C12: in exact arithmetic, for every smoothing constant `d` in (0,1), a
node with signal `s0` in [0,1] and the sample held at `c`, 0 or 1: after `n`
cycles of `check` the signal is `c + (s0 - c)*(1-d)^n`, which tends to `c`
(for every `ε > 0` it is within `ε` of `c` from some cycle on). In every
arithmetic of the update that rises under the sample 1 (`RisesAt1`), with the
sample held at 1 a node that is active and whose signal is not negative
becomes inactive in some cycle `N`, the first whose stored signal is above
`0.9`, `<q id>` being printed in that cycle and nothing else before or after,
and it is inactive from then on. Exact arithmetic rises for every smoothing
constant in (0,1); IEEE arithmetic of at least 24 bits rises for every
smoothing constant between 1/1000 and 1/2. -/
theorem C12_convergence :
    (∀ d : ℚ, 0 < d → d < 1 → ∀ s : Sensor, 0 ≤ s.signal → s.signal ≤ 1 →
      ∀ c : Int, c = 0 ∨ c = 1 →
        (∀ n, (trackWith (exactArith d) (List.replicate n c) s).1.signal
          = (c : ℚ) + (s.signal - c) * (1 - d) ^ n) ∧
        (∀ ε : ℚ, 0 < ε → ∃ N, ∀ n, N ≤ n →
          |(trackWith (exactArith d) (List.replicate n c) s).1.signal - (c : ℚ)| < ε)) ∧
    (∀ (a : Arith) (q : ℚ), RisesAt1 a q → ∀ s : Sensor, 0 ≤ s.signal → s.active = true →
      ∃ N, 0 < N ∧
        (∀ k, k < N → (trackWith a (List.replicate k 1) s).1.active = true ∧
          (trackWith a (List.replicate k 1) s).2 = "") ∧
        (trackWith a (List.replicate N 1) s).1.signal > a.hi ∧
        (checkOneWith a 1 (trackWith a (List.replicate (N - 1) 1) s).1).2
          = "<q" ++ toString s.data.snum ++ ">" ∧
        ∀ n, N ≤ n → (trackWith a (List.replicate n 1) s).1.active = false ∧
          (trackWith a (List.replicate n 1) s).2 = "<q" ++ toString s.data.snum ++ ">") ∧
    (∀ d : ℚ, 0 < d → d < 1 → RisesAt1 (exactArith d) (1 - d)) ∧
    (∀ p ps : Nat, 24 ≤ p → 24 ≤ ps → ∀ d : ℚ, 1 / 1000 ≤ d → d ≤ 1 / 2 →
      RisesAt1 (ieee p ps d) (1 - d / 2)) := by
  refine ⟨fun d hd0 hd1 s h0 h1 c hc => ⟨fun n => ?_, fun ε hε => ?_⟩,
    fun a q h s hs ha => releaseWith_from_active a q h s hs ha, risesAt1_exact, risesAt1_ieee⟩
  · rw [trackWith_exact]; exact track_replicate_signal d c n s
  · obtain ⟨N, hN⟩ := track_replicate_tendsto d hd0 hd1 s h0 h1 c hc ε hε
    exact ⟨N, fun n hn => by rw [trackWith_exact]; exact hN n hn⟩

/-- C12 at the decay `0.03`, an active sensor 7 with signal 1/4 and the sample
held at 1: the closed form and the limit in exact arithmetic, and in IEEE
arithmetic of 24 bits `<q7>` once; the cycle is the 67th. -/
theorem C12_convergence_witness :
    ((∀ n, (trackWith (exactArith (3 / 100)) (List.replicate n 1)
          ⟨⟨7, 2, 1⟩, 1 / 4, true⟩).1.signal
        = ((1 : Int) : ℚ) + (1 / 4 - ((1 : Int) : ℚ)) * (1 - 3 / 100) ^ n) ∧
      (∀ ε : ℚ, 0 < ε → ∃ N, ∀ n, N ≤ n →
        |(trackWith (exactArith (3 / 100)) (List.replicate n 1)
          ⟨⟨7, 2, 1⟩, 1 / 4, true⟩).1.signal - ((1 : Int) : ℚ)| < ε)) ∧
    (∃ N, 0 < N ∧
      (∀ k, k < N →
        (trackWith (ieee 24 24 (3 / 100)) (List.replicate k 1)
          ⟨⟨7, 2, 1⟩, 1 / 4, true⟩).1.active = true ∧
        (trackWith (ieee 24 24 (3 / 100)) (List.replicate k 1)
          ⟨⟨7, 2, 1⟩, 1 / 4, true⟩).2 = "") ∧
      (trackWith (ieee 24 24 (3 / 100)) (List.replicate N 1)
        ⟨⟨7, 2, 1⟩, 1 / 4, true⟩).1.signal > (ieee 24 24 (3 / 100)).hi ∧
      (checkOneWith (ieee 24 24 (3 / 100)) 1
        (trackWith (ieee 24 24 (3 / 100)) (List.replicate (N - 1) 1)
          ⟨⟨7, 2, 1⟩, 1 / 4, true⟩).1).2 = "<q7>" ∧
      ∀ n, N ≤ n →
        (trackWith (ieee 24 24 (3 / 100)) (List.replicate n 1)
          ⟨⟨7, 2, 1⟩, 1 / 4, true⟩).1.active = false ∧
        (trackWith (ieee 24 24 (3 / 100)) (List.replicate n 1)
          ⟨⟨7, 2, 1⟩, 1 / 4, true⟩).2 = "<q7>") ∧
    (trackWith (ieee 24 24 (3 / 100)) (List.replicate 66 1) ⟨⟨7, 2, 1⟩, 1 / 4, true⟩).2
      = "" ∧
    (trackWith (ieee 24 24 (3 / 100)) (List.replicate 67 1) ⟨⟨7, 2, 1⟩, 1 / 4, true⟩).2
      = "<q7>" :=
  ⟨C12_convergence.1 (3 / 100) (by norm_num) (by norm_num) ⟨⟨7, 2, 1⟩, 1 / 4, true⟩
      (by norm_num) (by norm_num) 1 (Or.inr rfl),
    C12_convergence.2.1 (ieee 24 24 (3 / 100)) (1 - 3 / 100 / 2)
      (C12_convergence.2.2.2 24 24 (le_refl 24) (le_refl 24) (3 / 100) (by norm_num)
        (by norm_num)) ⟨⟨7, 2, 1⟩, 1 / 4, true⟩
      (by norm_num) rfl,
    by decide!, by decide!⟩

end Sensor

/-! ## Notch and speed of the throttle -/

namespace LCDThrottle

/-- The normal mode: the notch moves by one, stopping at 15 and at 0, the
speed is four times the notch, the direction stays. -/
theorem normal_step (NORMAL FORWARD REVERSE : Int) (t : LCDThrottle)
    (hm : t.displayMode = NORMAL) :
    ((increaseSpeed NORMAL FORWARD REVERSE t).notch = if t.notch = 15 then 15 else t.notch + 1) ∧
    (increaseSpeed NORMAL FORWARD REVERSE t).speed
      = 4 * (increaseSpeed NORMAL FORWARD REVERSE t).notch ∧
    (increaseSpeed NORMAL FORWARD REVERSE t).dir = t.dir ∧
    ((decreaseSpeed NORMAL FORWARD REVERSE t).notch = if t.notch = 0 then 0 else t.notch - 1) ∧
    (decreaseSpeed NORMAL FORWARD REVERSE t).speed
      = 4 * (decreaseSpeed NORMAL FORWARD REVERSE t).notch ∧
    (decreaseSpeed NORMAL FORWARD REVERSE t).dir = t.dir := by
  have hdiv : Int.tdiv MAX_SPEED MAX_NOTCH_NORMAL = 4 := by decide
  simp only [increaseSpeed, decreaseSpeed, hm, if_true, hdiv]
  simp only [MAX_NOTCH_NORMAL]
  refine ⟨trivial, ?_, trivial, trivial, ?_, trivial⟩ <;> ring

/-- The other mode: the signed notch moves by one within -7..7, the speed is
eight times the notch. -/
theorem switcher_step (NORMAL FORWARD REVERSE : Int) (hfr : FORWARD ≠ REVERSE)
    (t : LCDThrottle) (hm : t.displayMode ≠ NORMAL) (h0 : 0 ≤ t.notch) (h1 : t.notch ≤ 7) :
    (0 ≤ (increaseSpeed NORMAL FORWARD REVERSE t).notch ∧
      (increaseSpeed NORMAL FORWARD REVERSE t).notch ≤ 7 ∧
      (increaseSpeed NORMAL FORWARD REVERSE t).speed
        = 8 * (increaseSpeed NORMAL FORWARD REVERSE t).notch ∧
      signedNotch REVERSE (increaseSpeed NORMAL FORWARD REVERSE t)
        = if signedNotch REVERSE t = 7 then 7 else signedNotch REVERSE t + 1) ∧
    (0 ≤ (decreaseSpeed NORMAL FORWARD REVERSE t).notch ∧
      (decreaseSpeed NORMAL FORWARD REVERSE t).notch ≤ 7 ∧
      (decreaseSpeed NORMAL FORWARD REVERSE t).speed
        = 8 * (decreaseSpeed NORMAL FORWARD REVERSE t).notch ∧
      signedNotch REVERSE (decreaseSpeed NORMAL FORWARD REVERSE t)
        = if signedNotch REVERSE t = -7 then -7 else signedNotch REVERSE t - 1) := by
  have hdiv : Int.tdiv MAX_SPEED MAX_NOTCH_SWITCHER = 8 := by decide
  simp only [increaseSpeed, decreaseSpeed, hm, if_false, hdiv, signedNotch]
  simp only [MAX_NOTCH_SWITCHER]
  refine ⟨?_, ?_⟩
  · split_ifs <;> simp_all <;> omega
  · split_ifs <;> simp_all <;> omega

/-- C20: in `DISPLAY_MODE_NORMAL`, if `0 <= notch <= 15` then after
`increaseSpeed` and after `decreaseSpeed` still `0 <= notch <= 15`,
`speed = 4*notch` (60/15 is 4), so `0 <= speed <= MAX_SPEED`, and `dir` is
as it was. In the other mode, if `0 <= notch <= 7` then afterwards
`0 <= notch <= 7` and `speed = 8*notch` (60/7 is 8 in integers), so
`0 <= speed <= 56`; and, `FORWARD` and `REVERSE` being different values, the
signed notch (`-notch` when `dir` is `REVERSE`) goes up by one on
`increaseSpeed`, stopping at 7, and down by one on `decreaseSpeed`, stopping
at -7. -/
theorem C20_throttle_bounds (NORMAL FORWARD REVERSE : Int) (t : LCDThrottle) :
    (t.displayMode = NORMAL → 0 ≤ t.notch → t.notch ≤ 15 →
      ∀ t', (t' = increaseSpeed NORMAL FORWARD REVERSE t ∨
          t' = decreaseSpeed NORMAL FORWARD REVERSE t) →
        0 ≤ t'.notch ∧ t'.notch ≤ 15 ∧ t'.speed = 4 * t'.notch ∧
        0 ≤ t'.speed ∧ t'.speed ≤ MAX_SPEED ∧ t'.dir = t.dir) ∧
    (FORWARD ≠ REVERSE → t.displayMode ≠ NORMAL → 0 ≤ t.notch → t.notch ≤ 7 →
      (∀ t', (t' = increaseSpeed NORMAL FORWARD REVERSE t ∨
          t' = decreaseSpeed NORMAL FORWARD REVERSE t) →
        0 ≤ t'.notch ∧ t'.notch ≤ 7 ∧ t'.speed = 8 * t'.notch ∧
        0 ≤ t'.speed ∧ t'.speed ≤ 56) ∧
      signedNotch REVERSE (increaseSpeed NORMAL FORWARD REVERSE t)
        = (if signedNotch REVERSE t = 7 then 7 else signedNotch REVERSE t + 1) ∧
      signedNotch REVERSE (decreaseSpeed NORMAL FORWARD REVERSE t)
        = (if signedNotch REVERSE t = -7 then -7 else signedNotch REVERSE t - 1)) := by
  constructor
  · intro hm h0 h1 t' ht'
    obtain ⟨a1, a2, a3, b1, b2, b3⟩ := normal_step NORMAL FORWARD REVERSE t hm
    have hmax : MAX_SPEED = 60 := rfl
    rcases ht' with rfl | rfl
    · rw [a2, a1, a3, hmax]
      split_ifs <;> omega
    · rw [b2, b1, b3, hmax]
      split_ifs <;> omega
  · intro hfr hm h0 h1
    obtain ⟨⟨a1, a2, a3, a4⟩, b1, b2, b3, b4⟩ :=
      switcher_step NORMAL FORWARD REVERSE hfr t hm h0 h1
    refine ⟨?_, a4, b4⟩
    intro t' ht'
    rcases ht' with rfl | rfl
    · exact ⟨a1, a2, a3, by omega, by omega⟩
    · exact ⟨b1, b2, b3, by omega, by omega⟩

/-- C20 with `DISPLAY_MODE_NORMAL = 0`, `FORWARD = 1`, `REVERSE = 0`: in the
normal mode from notch 15 and from notch 0, in the other mode from notch 0
forward and from notch 7 in reverse. -/
theorem C20_throttle_bounds_witness :
    increaseSpeed 0 1 0 ⟨15, 60, 1, 0⟩ = ⟨15, 60, 1, 0⟩ ∧
    decreaseSpeed 0 1 0 ⟨0, 0, 1, 0⟩ = ⟨0, 0, 1, 0⟩ ∧
    decreaseSpeed 0 1 0 ⟨0, 0, 1, 1⟩ = ⟨1, 8, 0, 1⟩ ∧
    increaseSpeed 0 1 0 ⟨7, 56, 0, 1⟩ = ⟨6, 48, 0, 1⟩ ∧
    (0 ≤ (increaseSpeed 0 1 0 ⟨15, 60, 1, 0⟩).notch ∧
      (increaseSpeed 0 1 0 ⟨15, 60, 1, 0⟩).notch ≤ 15 ∧
      (increaseSpeed 0 1 0 ⟨15, 60, 1, 0⟩).speed = 4 * (increaseSpeed 0 1 0 ⟨15, 60, 1, 0⟩).notch ∧
      0 ≤ (increaseSpeed 0 1 0 ⟨15, 60, 1, 0⟩).speed ∧
      (increaseSpeed 0 1 0 ⟨15, 60, 1, 0⟩).speed ≤ MAX_SPEED ∧
      (increaseSpeed 0 1 0 ⟨15, 60, 1, 0⟩).dir = 1) ∧
    signedNotch 0 (decreaseSpeed 0 1 0 ⟨0, 0, 1, 1⟩)
      = (if signedNotch 0 ⟨0, 0, 1, 1⟩ = -7 then -7 else signedNotch 0 ⟨0, 0, 1, 1⟩ - 1) :=
  ⟨by decide, by decide, by decide, by decide,
    (C20_throttle_bounds 0 1 0 ⟨15, 60, 1, 0⟩).1 rfl (by decide) (by decide) _ (Or.inl rfl),
    ((C20_throttle_bounds 0 1 0 ⟨0, 0, 1, 1⟩).2 (by decide) (by decide) (by decide)
      (by decide)).2.2⟩

end LCDThrottle
